import Mathlib

/-
Verification development for the CHAW progress-computation engine
(`app/services/progress_calculator.py`, `app/api/lesson_entries.py`,
`app/services/unenrollment_service.py`, `app/config.py`).

Conventions of the shallow embedding:
* Python dicts keyed by lesson number become association lists
  (`List (Nat × Status)`), first-match lookup, insertion-order preserved.
* Database tables become lists of records inside an explicit `DB` state;
  SQLAlchemy `query(...).first()` becomes `List.find?`, in-place mutation
  of the found row becomes a first-match functional update.
* Python floats become `ℚ`; `round(x, 2)` becomes `round2` below (the
  difference between banker's rounding and round-half-up is irrelevant on
  the values reachable here, whose denominators never reduce to 2).
* UUIDs and dates are abstracted to `Nat`.
-/

namespace CHAW

/-- Lesson outcome codes, mirroring `LessonStatusEnum` in
`app/models/lesson_status.py`: Y = passed, N = failed, A = absent,
U = unenrolled. -/
inductive Status where
  | Y
  | N
  | A
  | U
deriving DecidableEq, Repr

/-- Student enrollment states, mirroring `StudentStatus` in
`app/models/student.py`. -/
inductive StudentState where
  | active
  | inactive
  | unenrolled
  | transferred
deriving DecidableEq, Repr

/-- Progress-record types, mirroring `ProgressType` in
`app/models/progress.py`. -/
inductive ProgressType where
  | initial_assessment
  | ufli_map
  | grade_summary
deriving DecidableEq, Repr

/-- Lesson-entry classification, mirroring `EntryType` in
`app/models/lesson_entry.py`. -/
inductive EntryType where
  | small_group
  | tutoring
  | prek
deriving DecidableEq, Repr

/-- Unenrollment-log states, mirroring `UnenrollmentStatus` in
`app/models/unenrollment.py`. -/
inductive UnenrollmentState where
  | pending
  | confirmed
  | resolved
  | error
deriving DecidableEq, Repr

/-- The per-student status map `{lesson_number: status}` built by
`ProgressCalculator._get_student_statuses` — a Python dict embedded as an
association list. -/
abbrev StatusMap := List (Nat × Status)

/-- Dict lookup `status_map.get(l)`: value of the first entry with the key. -/
def smGet (m : StatusMap) (l : Nat) : Option Status :=
  (m.find? (fun p => p.1 == l)).map Prod.snd

/-- First-match in-place update of a list, the embedding of mutating the
row returned by `.first()` (at most one row matches under the database's
uniqueness constraints). -/
def updateFirst {α : Type} (p : α → Bool) (f : α → α) : List α → List α
  | [] => []
  | x :: xs => if p x then f x :: xs else x :: updateFirst p f xs

/-- Dict insertion-with-overwrite `d[k] = v` (keeps insertion order). -/
def smInsert (m : StatusMap) (k : Nat) (v : Status) : StatusMap :=
  if m.any (fun p => p.1 == k) then
    updateFirst (fun p => p.1 == k) (fun p => (p.1, v)) m
  else
    m ++ [(k, v)]

/-- Python's `max` over a non-empty list (`none` embeds the "no passed
lesson" case that `_calculate_current_lesson` guards with `if passed_lessons`). -/
def listMax? : List Nat → Option Nat
  | [] => none
  | x :: xs =>
    match listMax? xs with
    | none => some x
    | some y => some (max x y)

/-! ## Curriculum catalog (`app/config.py`) -/

/-- `REVIEW_LESSONS` from `app/config.py`. -/
def REVIEW_LESSONS : List Nat :=
  [35, 36, 37, 39, 40, 41, 49, 53, 57, 59, 62, 71, 76, 79, 83, 88, 92, 97,
   102, 104, 105, 106, 128]

/-- `FOUNDATIONAL_LESSONS = list(range(1, 35))` from `app/config.py`. -/
def FOUNDATIONAL_LESSONS : List Nat := List.range' 1 34

/-- One entry of `GRADE_LESSON_CONFIG`; `currentYearLessons` defaults to
`[]`, matching the calculator's `grade_config.get("current_year_lessons", [])`
for the grades that omit the key. -/
structure GradeConfig where
  minLessons : List Nat
  currentYearLessons : List Nat := []
  benchmarkDenominator : Nat
  isLetterBased : Bool
deriving DecidableEq, Repr

/-- `GRADE_LESSON_CONFIG` from `app/config.py`, in dict order. -/
def GRADE_LESSON_CONFIG : List (String × GradeConfig) :=
  [("PreK", { minLessons := List.range' 1 26
              benchmarkDenominator := 26
              isLetterBased := true }),
   ("KG", { minLessons := List.range' 1 34
            benchmarkDenominator := 34
            isLetterBased := false }),
   ("G1", { minLessons := List.range' 1 34 ++ List.range' 42 12
            currentYearLessons := List.range' 42 12
            benchmarkDenominator := 44
            isLetterBased := false }),
   ("G2", { minLessons := List.range' 1 34 ++ List.range' 42 21
            currentYearLessons := List.range' 54 9
            benchmarkDenominator := 56
            isLetterBased := false }),
   ("G3", { minLessons := List.range' 1 34 ++ List.range' 42 21
            currentYearLessons := List.range' 63 21
            benchmarkDenominator := 56
            isLetterBased := false }),
   ("G4", { minLessons := List.range' 1 34 ++ List.range' 42 69
            currentYearLessons := List.range' 84 27
            benchmarkDenominator := 103
            isLetterBased := false }),
   ("G5", { minLessons := List.range' 1 34 ++ List.range' 42 69
            currentYearLessons := List.range' 84 27
            benchmarkDenominator := 103
            isLetterBased := false }),
   ("G6", { minLessons := List.range' 1 34 ++ List.range' 42 69
            currentYearLessons := List.range' 84 45
            benchmarkDenominator := 103
            isLetterBased := false }),
   ("G7", { minLessons := List.range' 1 34 ++ List.range' 42 69
            currentYearLessons := List.range' 84 45
            benchmarkDenominator := 103
            isLetterBased := false }),
   ("G8", { minLessons := List.range' 1 34 ++ List.range' 42 69
            currentYearLessons := List.range' 84 45
            benchmarkDenominator := 103
            isLetterBased := false })]

/-- Dict lookup `GRADE_LESSON_CONFIG.get(name)`. -/
def gradeConfigLookup (name : String) : Option GradeConfig :=
  (GRADE_LESSON_CONFIG.find? (fun p => p.1 == name)).map Prod.snd

/-- The `"KG"` entry of `GRADE_LESSON_CONFIG` (the documented fallback). -/
def kgConfig : GradeConfig :=
  { minLessons := List.range' 1 34
    benchmarkDenominator := 34
    isLetterBased := false }

/-- Grade-config resolution in `calculate_student_progress`:
`grade_name = student.grade.name if student.grade else "KG"` followed by
`GRADE_LESSON_CONFIG.get(grade_name, GRADE_LESSON_CONFIG.get("KG"))`.
The inner `.get("KG")` always yields the `"KG"` entry (`kgConfig`), which
is what the `none` branch returns. -/
def resolveGradeConfig (gradeName : Option String) : GradeConfig :=
  match gradeConfigLookup (gradeName.getD "KG") with
  | some c => c
  | none => kgConfig

/-- One entry of `SKILL_SECTIONS` from `app/config.py`. -/
structure SkillSection where
  id : Nat
  name : String
  lessons : List Nat
deriving DecidableEq, Repr

/-- `SKILL_SECTIONS` from `app/config.py`. -/
def SKILL_SECTIONS : List SkillSection :=
  [⟨1, "Single Consonants & Short Vowels", List.range' 1 34⟩,
   ⟨2, "Blends", [25, 27]⟩,
   ⟨3, "Alphabet Review", List.range' 35 7⟩,
   ⟨4, "Digraphs", List.range' 42 12⟩,
   ⟨5, "VCE (Vowel-Consonant-E)", List.range' 54 9⟩,
   ⟨6, "Reading Longer Words", List.range' 63 6⟩,
   ⟨7, "Ending Spelling Patterns", List.range' 69 8⟩,
   ⟨8, "R-Controlled Vowels", List.range' 77 7⟩,
   ⟨9, "Long Vowel Teams", List.range' 84 5⟩,
   ⟨10, "Other Vowel Teams", List.range' 89 6⟩,
   ⟨11, "Diphthongs", List.range' 95 3⟩,
   ⟨12, "Silent Letters", [98]⟩,
   ⟨13, "Suffixes & Prefixes", List.range' 99 8⟩,
   ⟨14, "Suffix Spelling Changes", List.range' 107 4⟩,
   ⟨15, "Low Frequency Spellings", List.range' 111 8⟩,
   ⟨16, "Additional Affixes", List.range' 119 8⟩,
   ⟨17, "Affixes Review 2", [127, 128]⟩]

/-! ## Progress calculator (`app/services/progress_calculator.py`) -/

/-- Pass count `sum(1 for l in lessons if status_map.get(l) == "Y")`. -/
def countY (m : StatusMap) (lessons : List Nat) : Nat :=
  (lessons.filter (fun l => decide (smGet m l = some Status.Y))).length

/-- `ProgressCalculator._calculate_foundational`. -/
def calculateFoundational (m : StatusMap) : Nat × ℚ :=
  let count := countY m FOUNDATIONAL_LESSONS
  (count, if (34 : Nat) > 0 then (count : ℚ) / 34 * 100 else 0)

/-- List comprehension `[l for l in lessons if l not in REVIEW_LESSONS]`. -/
def nonReviewOf (lessons : List Nat) : List Nat :=
  lessons.filter (fun l => !(REVIEW_LESSONS.contains l))

/-- `ProgressCalculator._calculate_min_grade` (the `grade_config.get`
defaults are irrelevant because every `GradeConfig` carries both fields). -/
def calculateMinGrade (m : StatusMap) (cfg : GradeConfig) : Nat × ℚ :=
  let nonReviewLessons := nonReviewOf cfg.minLessons
  let count := countY m nonReviewLessons
  let denominator := nonReviewLessons.length
  (count, if denominator > 0 then (count : ℚ) / denominator * 100 else 0)

/-- `ProgressCalculator._calculate_full_grade`. -/
def calculateFullGrade (m : StatusMap) (cfg : GradeConfig) : Nat × ℚ :=
  let currentYear := cfg.currentYearLessons
  if currentYear.isEmpty then (0, 0)
  else
    let count := countY m currentYear
    (count,
     if currentYear.length > 0 then (count : ℚ) / currentYear.length * 100
     else 0)

/-- `ProgressCalculator._calculate_benchmark`. -/
def calculateBenchmark (m : StatusMap) (cfg : GradeConfig) : Nat × ℚ :=
  let denominator := cfg.benchmarkDenominator
  let nonReviewLessons := nonReviewOf cfg.minLessons
  let count := countY m nonReviewLessons
  (count, if denominator > 0 then (count : ℚ) / denominator * 100 else 0)

/-- `ProgressCalculator._calculate_current_lesson`: highest lesson number
recorded `Y`, `none` when there is none. -/
def calculateCurrentLesson (m : StatusMap) : Option Nat :=
  listMax? ((m.filter (fun p => decide (p.2 = Status.Y))).map Prod.fst)

/-- `ProgressCalculator._calculate_section_percentage`. The three early
returns of the Python are flattened into one conditional: the 100%
override fires exactly when `review_lessons` is non-empty, at least one of
them is recorded, and every recorded one is `Y`; otherwise the non-review
computation runs (0 when no non-review lessons, which also covers the
initial `if not section_lessons` early return). -/
def calculateSectionPercentage (m : StatusMap) (sectionLessons : List Nat) : ℚ :=
  let reviewLessons := sectionLessons.filter (fun l => REVIEW_LESSONS.contains l)
  let nonReviewLessons := sectionLessons.filter (fun l => !(REVIEW_LESSONS.contains l))
  let reviewStatuses := reviewLessons.filterMap (fun l => smGet m l)
  if !reviewLessons.isEmpty && !reviewStatuses.isEmpty &&
      reviewStatuses.all (fun s => decide (s = Status.Y)) then
    100
  else if nonReviewLessons.isEmpty then 0
  else (countY m nonReviewLessons : ℚ) / nonReviewLessons.length * 100

/-- `ProgressCalculator._calculate_all_skill_sections`, keyed by section id
(the Python keys the dict with the string `section_{id}`). -/
def calculateAllSkillSections (m : StatusMap) : List (Nat × ℚ) :=
  SKILL_SECTIONS.map (fun s => (s.id, calculateSectionPercentage m s.lessons))

/-- The dict returned by `ProgressCalculator.calculate_student_progress`
(percentages still unrounded). -/
structure ProgressData where
  currentLesson : Option Nat
  foundationalCount : Nat
  foundationalPct : ℚ
  minGradeCount : Nat
  minGradePct : ℚ
  fullGradeCount : Nat
  fullGradePct : ℚ
  benchmarkCount : Nat
  benchmarkPct : ℚ
  skillSections : List (Nat × ℚ)
deriving DecidableEq, Repr

/-- The pure computation inside `calculate_student_progress`, from the
status map and the student's grade name. -/
def computeProgressData (m : StatusMap) (gradeName : Option String) : ProgressData :=
  let cfg := resolveGradeConfig gradeName
  let foundational := calculateFoundational m
  let minGrade := calculateMinGrade m cfg
  let fullGrade := calculateFullGrade m cfg
  let benchmark := calculateBenchmark m cfg
  { currentLesson := calculateCurrentLesson m
    foundationalCount := foundational.1
    foundationalPct := foundational.2
    minGradeCount := minGrade.1
    minGradePct := minGrade.2
    fullGradeCount := fullGrade.1
    fullGradePct := fullGrade.2
    benchmarkCount := benchmark.1
    benchmarkPct := benchmark.2
    skillSections := calculateAllSkillSections m }

/-- `round(x, 2)` at the storage boundary
(`Decimal(str(round(pct, 2)))` in `calculate_student_progress`). On every
percentage this program stores, the value times 100 is never a half-integer
(no metric denominator has a factor making that possible), so round-half-up
agrees with Python's round-half-even there. -/
def round2 (q : ℚ) : ℚ := (round (q * 100) : ℤ) / 100

/-! ## Database state

Tables become lists of records; UUID keys and dates become `Nat`. A
student's `grade` relationship is collapsed to the related grade's name
(the only field the engine reads from it). -/

/-- One `student` row (the columns the engine touches). -/
structure StudentRec where
  studentId : Nat
  siteId : Nat
  grade : Option String
  state : StudentState
  unenrollmentDate : Option Nat
  lastActivityDate : Option Nat
  currentLesson : Option Nat
deriving DecidableEq, Repr

/-- The source's `Student.is_active` is not a stored column: it is a
getter-only `@property` derived from the status column
(`student.py` lines 79-82), so it is embedded as a function of the row.
Having no setter, any assignment to it raises `AttributeError`. -/
def StudentRec.isActive (s : StudentRec) : Bool :=
  decide (s.state = StudentState.active)

/-- One `group` row. -/
structure GroupRec where
  groupId : Nat
  siteId : Nat
  name : String
  isTutoringGroup : Bool
deriving DecidableEq, Repr

/-- One `teacher` row. -/
structure TeacherRec where
  teacherId : Nat
  siteId : Nat
deriving DecidableEq, Repr

/-- One `lesson` row. -/
structure LessonRec where
  lessonId : Nat
  number : Nat
  name : String
deriving DecidableEq, Repr

/-- One `lesson_status` row (the Ledger). -/
structure LedgerRec where
  studentId : Nat
  lessonId : Nat
  groupId : Option Nat
  teacherId : Option Nat
  status : Status
  completedDate : Option Nat
  isInitial : Bool
deriving DecidableEq, Repr

/-- One `lesson_entry` row. -/
structure EntryRec where
  siteId : Nat
  studentId : Nat
  groupId : Nat
  teacherId : Nat
  lessonId : Nat
  entryDate : Nat
  status : Status
  entryType : EntryType
deriving DecidableEq, Repr

/-- One `progress_record` row. -/
structure ProgressRec where
  studentId : Nat
  recordType : ProgressType
  foundationalCount : Nat
  foundationalPct : ℚ
  minGradeCount : Nat
  minGradePct : ℚ
  fullGradeCount : Nat
  fullGradePct : ℚ
  benchmarkCount : Nat
  benchmarkPct : ℚ
  skillSections : List (Nat × ℚ)
deriving DecidableEq, Repr

/-- One `unenrollment_log` row. -/
structure UnenrollLogRec where
  logId : Nat
  studentId : Nat
  reportedById : Option Nat
  reportedDate : Nat
  lessonAtUnenroll : Option String
  state : UnenrollmentState
  notes : Option String
deriving DecidableEq, Repr

/-- One `student_archive` row. The JSON snapshot columns keep the fields
the claims inspect: the Ledger split by assessment phase (status per
lesson number) and the archived `current_lesson`. -/
structure ArchiveRec where
  archiveId : Nat
  studentId : Nat
  unenrollmentLogId : Nat
  initialAssessmentData : Option (List (Nat × Status))
  ufliMapData : Option (List (Nat × Status))
  currentLesson : Option Nat
  archivedAt : Nat
deriving DecidableEq, Repr

/-- The whole database state. -/
structure DB where
  students : List StudentRec
  groups : List GroupRec
  teachers : List TeacherRec
  lessons : List LessonRec
  ledger : List LedgerRec
  entries : List EntryRec
  progressRecords : List ProgressRec
  unenrollmentLogs : List UnenrollLogRec
  archives : List ArchiveRec
deriving DecidableEq, Repr

/-- Group lookup filtered by site, as in `create_lesson_entries`. -/
def findGroup (db : DB) (gid sid : Nat) : Option GroupRec :=
  db.groups.find? (fun g => g.groupId == gid && g.siteId == sid)

/-- Teacher lookup filtered by site. -/
def findTeacher (db : DB) (tid sid : Nat) : Option TeacherRec :=
  db.teachers.find? (fun t => t.teacherId == tid && t.siteId == sid)

/-- Lesson lookup (no site filter, as in the source). -/
def findLesson (db : DB) (lid : Nat) : Option LessonRec :=
  db.lessons.find? (fun l => l.lessonId == lid)

/-- Student lookup filtered by site (the per-student resolution step). -/
def findStudent (db : DB) (sid siteId : Nat) : Option StudentRec :=
  db.students.find? (fun s => s.studentId == sid && s.siteId == siteId)

/-- Mutation of the student row resolved earlier in the loop (student ids
are unique, so first-match update by id reaches that same row). -/
def updateStudent (db : DB) (sid : Nat) (f : StudentRec → StudentRec) : DB :=
  { db with students := updateFirst (fun s => s.studentId == sid) f db.students }

/-- Key predicate of the Ledger upsert:
`(student_id, lesson_id, is_initial_assessment=False)`. -/
def ledgerKeyMatch (sid lid : Nat) (r : LedgerRec) : Bool :=
  r.studentId == sid && r.lessonId == lid && !r.isInitial

/-- The status map `_get_student_statuses` builds: non-initial rows of the
student, joined to the lesson table for the number, rows with a missing
lesson skipped, dict built in row order. -/
def statusMapOf (db : DB) (sid : Nat) : StatusMap :=
  (db.ledger.filter (fun r => r.studentId == sid && !r.isInitial)).foldl
    (fun acc r =>
      match findLesson db r.lessonId with
      | some l => smInsert acc l.number r.status
      | none => acc)
    []

/-- Writing one `ProgressData` into a `progress_record` row
(`calculate_student_progress` lines 109–118): the four percentages pass
through `round(·, 2)`, the section map is stored as computed. -/
def applyProgressData (d : ProgressData) (pr : ProgressRec) : ProgressRec :=
  { pr with
    foundationalCount := d.foundationalCount
    foundationalPct := round2 d.foundationalPct
    minGradeCount := d.minGradeCount
    minGradePct := round2 d.minGradePct
    fullGradeCount := d.fullGradeCount
    fullGradePct := round2 d.fullGradePct
    benchmarkCount := d.benchmarkCount
    benchmarkPct := round2 d.benchmarkPct
    skillSections := d.skillSections }

/-- A freshly constructed `ProgressRecord(student_id=…, record_type=ufli_map)`
with the column defaults. -/
def blankProgressRec (sid : Nat) : ProgressRec :=
  { studentId := sid
    recordType := ProgressType.ufli_map
    foundationalCount := 0
    foundationalPct := 0
    minGradeCount := 0
    minGradePct := 0
    fullGradeCount := 0
    fullGradePct := 0
    benchmarkCount := 0
    benchmarkPct := 0
    skillSections := [] }

/-- Match for the student's cached `ufli_map` progress record. -/
def progressKeyMatch (sid : Nat) (pr : ProgressRec) : Bool :=
  pr.studentId == sid && decide (pr.recordType = ProgressType.ufli_map)

/-- Update-or-create of the cached progress record. -/
def upsertProgressRecord (db : DB) (sid : Nat) (d : ProgressData) : DB :=
  if db.progressRecords.any (progressKeyMatch sid) then
    { db with progressRecords :=
        updateFirst (progressKeyMatch sid) (applyProgressData d) db.progressRecords }
  else
    { db with progressRecords :=
        db.progressRecords ++ [applyProgressData d (blankProgressRec sid)] }

/-- `ProgressCalculator.calculate_student_progress` at the database level:
recompute everything from the Ledger, overwrite `student.current_lesson`
with the recomputed value, and upsert the cached progress record. In the
modeled flows the student always exists, so the `none` branch is inert. -/
def calculateStudentProgress (db : DB) (sid : Nat) : DB :=
  match db.students.find? (fun s => s.studentId == sid) with
  | none => db
  | some stu =>
    let d := computeProgressData (statusMapOf db sid) stu.grade
    let db1 := updateStudent db sid (fun s => { s with currentLesson := d.currentLesson })
    upsertProgressRecord db1 sid d

/-! ## Entry ingestion (`app/api/lesson_entries.py`, `create_lesson_entries`) -/

/-- The request body plus the caller's site id. -/
structure BatchInput where
  siteId : Nat
  groupId : Nat
  teacherId : Nat
  lessonId : Nat
  entryDate : Nat
  entryType : Option EntryType
  students : List (Nat × Status)
deriving DecidableEq, Repr

/-- Context fixed after batch validation. -/
structure BatchCtx where
  siteId : Nat
  groupId : Nat
  teacherId : Nat
  lessonId : Nat
  lessonNumber : Nat
  entryDate : Nat
  entryType : EntryType
deriving DecidableEq, Repr

/-- Loop accumulators of `create_lesson_entries`. -/
structure Accum where
  created : Nat := 0
  updated : Nat := 0
  unenrolled : Nat := 0
  errors : List (Nat × String) := []
  recalc : List Nat := []
deriving DecidableEq, Repr

/-- The field overwrite of the Ledger update branch:
`existing_status.status/.completed_date/.group_id/.teacher_id = …`. -/
def ledgerOverwrite (ctx : BatchCtx) (st : Status) (r : LedgerRec) : LedgerRec :=
  { r with
    status := st
    completedDate := some ctx.entryDate
    groupId := some ctx.groupId
    teacherId := some ctx.teacherId }

/-- The Ledger upsert: overwrite the existing non-initial row for
`(student, lesson)` in place, or append a new one; the boolean reports
which branch ran (`updated_count` vs `created_count`). -/
def upsertLedger (L : List LedgerRec) (ctx : BatchCtx) (sid : Nat) (st : Status) :
    List LedgerRec × Bool :=
  if L.any (ledgerKeyMatch sid ctx.lessonId) then
    (updateFirst (ledgerKeyMatch sid ctx.lessonId) (ledgerOverwrite ctx st) L, true)
  else
    (L ++ [{ studentId := sid
             lessonId := ctx.lessonId
             groupId := some ctx.groupId
             teacherId := some ctx.teacherId
             status := st
             completedDate := some ctx.entryDate
             isInitial := false }], false)

/-- The two field writes of the `status == "U"` branch:
`student.status = StudentStatus.unenrolled` and
`student.unenrollment_date = entry_date.date()`. -/
def markUnenrolled (d : Nat) (s : StudentRec) : StudentRec :=
  { s with state := StudentState.unenrolled, unenrollmentDate := some d }

/-- The incremental current-lesson advance:
`if student.current_lesson is None or lesson.number > student.current_lesson`. -/
def advanceCurrentLesson (n : Nat) (s : StudentRec) : StudentRec :=
  match s.currentLesson with
  | none => { s with currentLesson := some n }
  | some c => if n > c then { s with currentLesson := some n } else s

/-- One iteration of the per-student loop of `create_lesson_entries`. -/
def processStudent (ctx : BatchCtx) (db : DB) (acc : Accum) (sid : Nat) (st : Status) :
    DB × Accum :=
  match findStudent db sid ctx.siteId with
  | none => (db, { acc with errors := acc.errors ++ [(sid, "Student not found")] })
  | some _ =>
    if st = Status.U then
      (updateStudent db sid (markUnenrolled ctx.entryDate),
       { acc with unenrolled := acc.unenrolled + 1 })
    else
      let entry : EntryRec :=
        { siteId := ctx.siteId
          studentId := sid
          groupId := ctx.groupId
          teacherId := ctx.teacherId
          lessonId := ctx.lessonId
          entryDate := ctx.entryDate
          status := st
          entryType := ctx.entryType }
      let db1 := { db with entries := db.entries ++ [entry] }
      let up := upsertLedger db1.ledger ctx sid st
      let db2 := { db1 with ledger := up.1 }
      let db3 := updateStudent db2 sid (fun s =>
        let s1 := { s with lastActivityDate := some ctx.entryDate }
        if st = Status.Y then advanceCurrentLesson ctx.lessonNumber s1 else s1)
      let acc1 :=
        if up.2 then { acc with updated := acc.updated + 1 }
        else { acc with created := acc.created + 1 }
      (db3, { acc1 with recalc := acc1.recalc ++ [sid] })

/-- The whole per-student loop. -/
def processStudents (ctx : BatchCtx) : DB → Accum → List (Nat × Status) → DB × Accum
  | db, acc, [] => (db, acc)
  | db, acc, (sid, st) :: rest =>
    let r := processStudent ctx db acc sid st
    processStudents ctx r.1 r.2 rest

/-- The recalculation pass over the touched students. -/
def recalcAll (db : DB) (sids : List Nat) : DB :=
  sids.foldl calculateStudentProgress db

/-- The validated batch context: ids from the resolved rows, the tutoring
override applied to the entry type. -/
def batchCtx (inp : BatchInput) (group : GroupRec) (teacher : TeacherRec)
    (lesson : LessonRec) : BatchCtx :=
  { siteId := inp.siteId
    groupId := group.groupId
    teacherId := teacher.teacherId
    lessonId := lesson.lessonId
    lessonNumber := lesson.number
    entryDate := inp.entryDate
    entryType :=
      if group.isTutoringGroup then EntryType.tutoring
      else inp.entryType.getD EntryType.small_group }

/-- Sequential application of Ledger upserts for one batch context. -/
def upsertAllLedger (ctx : BatchCtx) : List LedgerRec → List (Nat × Status) → List LedgerRec
  | L, [] => L
  | L, (sid, st) :: rest => upsertAllLedger ctx (upsertLedger L ctx sid st).1 rest

/-- The batch pairs that reach the Ledger: resolvable students with a
non-U outcome (resolution read against the given reference state). -/
def effectivePairs (db : DB) (ctx : BatchCtx) (S : List (Nat × Status)) :
    List (Nat × Status) :=
  S.filter (fun p => (findStudent db p.1 ctx.siteId).isSome && !(decide (p.2 = Status.U)))

/-- The response payload of `create_lesson_entries`. -/
structure BatchResult where
  created : Nat
  updated : Nat
  unenrolled : Nat
  errors : List (Nat × String)
  lessonNumber : Nat
  groupName : String
  entryDate : Nat
deriving DecidableEq, Repr

/-- `create_lesson_entries`: batch validation (group by site, teacher by
site, lesson), tutoring override of the entry type, the per-student loop,
then progress recalculation for every successfully touched student. -/
def processBatch (db : DB) (inp : BatchInput) : Except String (DB × BatchResult) :=
  match findGroup db inp.groupId inp.siteId with
  | none => Except.error "Invalid group_id"
  | some group =>
    match findTeacher db inp.teacherId inp.siteId with
    | none => Except.error "Invalid teacher_id"
    | some teacher =>
      match findLesson db inp.lessonId with
      | none => Except.error "Invalid lesson_id"
      | some lesson =>
        let ctx := batchCtx inp group teacher lesson
        let r := processStudents ctx db {} inp.students
        let db2 := recalcAll r.1 r.2.recalc
        Except.ok (db2,
          { created := r.2.created
            updated := r.2.updated
            unenrolled := r.2.unenrolled
            errors := r.2.errors
            lessonNumber := lesson.number
            groupName := group.name
            entryDate := inp.entryDate })

/-! ## Unenrollment service (`app/services/unenrollment_service.py`) -/

/-- Ledger snapshot of one assessment phase, as `_archive_student_data`
builds it (per lesson number, rows with a missing lesson skipped). -/
def snapshotPhase (db : DB) (sid : Nat) (initial : Bool) : List (Nat × Status) :=
  (db.ledger.filter (fun r => r.studentId == sid && r.isInitial == initial)).filterMap
    (fun r => (findLesson db r.lessonId).map (fun l => (l.number, r.status)))

/-- The source's `UnenrollmentService.unenroll_student`: it looks up the
student, stages one pending `UnenrollmentLog` and one `StudentArchive`
snapshot in the session, and then — before `commit()` — executes
`student.is_active = False` (`unenrollment_service.py` line 77), which
raises `AttributeError` because `Student.is_active` is a getter-only
`@property`. The exception aborts the request, the transaction is rolled
back and none of the staged rows persist, so the service never completes
on a student that exists; on a missing student it raises `ValueError`
first. Either way no state change is observable, which the embedding
renders as an error with the input state untouched. The fresh UUIDs the
staged rows would have used are passed in as `newLogId` / `newArchiveId`
to keep the source signature. -/
def unenrollStudent (db : DB) (newLogId newArchiveId : Nat) (sid : Nat)
    (reportedBy : Option Nat) (reportedDate : Nat)
    (lessonAt : Option String) (notes : Option String) : Except String DB :=
  match db.students.find? (fun s => s.studentId == sid) with
  | none => Except.error "Student not found"
  | some _ => Except.error "AttributeError: property is_active of Student has no setter"

/-- The source's `UnenrollmentService.resolve_unenrollment`: it flips the
log to resolved and appends a resolution note in the session, then — if
`log.student` resolves to a row — executes `student.is_active = True`
(`unenrollment_service.py` line 211), which raises `AttributeError`
(getter-only `@property`), rolling the whole transaction back; only when
the log's student row does not exist is `commit()` reached, persisting the
log update alone. The embedding renders the crash as an error with the
input state untouched, and the one reachable success with the log update
applied. -/
def resolveUnenrollment (db : DB) (logId : Nat) (note : Option String) :
    Except String DB :=
  match db.unenrollmentLogs.find? (fun l => l.logId == logId) with
  | none => Except.error "UnenrollmentLog not found"
  | some log =>
    match db.students.find? (fun s => s.studentId == log.studentId) with
    | some _ => Except.error "AttributeError: property is_active of Student has no setter"
    | none =>
      let markResolved : UnenrollLogRec → UnenrollLogRec := fun l =>
        let l1 := { l with state := UnenrollmentState.resolved }
        match note with
        | some n =>
          { l1 with notes := some ((l1.notes.getD "") ++ "\nResolution: " ++ n) }
        | none => l1
      let logs1 := updateFirst (fun l => l.logId == logId) markResolved db.unenrollmentLogs
      Except.ok { db with unenrollmentLogs := logs1 }

/-! ## Analysis views of the status-map construction

These three definitions re-express `statusMapOf` for proofs: the rows
contributing to the dict as (lesson number, status) pairs, the dict as a
fold of insertions, and lookup as "value of the last row with this key".
They are proved equal to `statusMapOf` below, not used by the embedding
itself. -/

/-- The (lesson number, status) pairs of a student's non-initial Ledger
rows, in row order, rows with an unknown lesson dropped. -/
def pairsOf (lessons : List LessonRec) (L : List LedgerRec) (sid : Nat) :
    List (Nat × Status) :=
  (L.filter (fun r => r.studentId == sid && !r.isInitial)).filterMap
    (fun r => ((lessons.find? (fun l => l.lessonId == r.lessonId)).map
      (fun l => (l.number, r.status))))

/-- Building a dict by inserting pairs in order. -/
def buildDict (ps : List (Nat × Status)) : StatusMap :=
  ps.foldl (fun acc p => smInsert acc p.1 p.2) []

/-- Value of the last pair with the given key. -/
def lastVal (ps : List (Nat × Status)) (n : Nat) : Option Status :=
  ps.foldl (fun acc p => if p.1 = n then some p.2 else acc) none

/-! ## Further definitions used by the theorems -/

/-- Student lookup by primary key only (used by the calculator and the
unenrollment service, which do not filter by site). -/
def findStudentById (db : DB) (sid : Nat) : Option StudentRec :=
  db.students.find? (fun s => s.studentId == sid)

/-- The `current_lesson` pointer of a student, `none` when the student is
missing or the pointer is unset. -/
def studentCurrentLesson (db : DB) (sid : Nat) : Option Nat :=
  (findStudentById db sid).bind (fun s => s.currentLesson)

/-- Analysis view: a student's stored grade label, by id (`none` when the
student is missing). -/
def gradeView (db : DB) (sid : Nat) : Option (Option String) :=
  (findStudentById db sid).map (fun s => s.grade)

/-- Order on `current_lesson` values: an unset pointer is below every
value; a set pointer may only stay or grow. -/
def currentLessonLE : Option Nat → Option Nat → Prop
  | none, _ => True
  | some x, b => ∃ y, b = some y ∧ x ≤ y

/-- Option status recorded as Y, N, or A (the claim's "recorded status"). -/
def recordedYNA (o : Option Status) : Prop :=
  o = some Status.Y ∨ o = some Status.N ∨ o = some Status.A

instance (o : Option Status) : Decidable (recordedYNA o) := by
  unfold recordedYNA; infer_instance

/-- The section percentage as C1 words it (the refinement counterpart of
`calculateSectionPercentage`, written from the claim, not the source):
100 outright when the review subset is non-empty, at least one review
lesson has a recorded status among Y/N/A, and every recorded review lesson
is Y; in every other case the Y-ratio over the non-review subset, 0 when
that subset is empty. -/
def sectionPercentageClaim (m : StatusMap) (sectionLessons : List Nat) : ℚ :=
  let reviews := sectionLessons.filter (fun l => REVIEW_LESSONS.contains l)
  let nonReviews := sectionLessons.filter (fun l => !(REVIEW_LESSONS.contains l))
  if reviews ≠ [] ∧ (∃ l ∈ reviews, recordedYNA (smGet m l)) ∧
      (∀ l ∈ reviews, smGet m l = none ∨ smGet m l = some Status.Y) then 100
  else if nonReviews = [] then 0
  else (countY m nonReviews : ℚ) / nonReviews.length * 100

/-- A one-student site used for the concrete evaluations: student 1 in
grade G1, group 20, teacher 30, lesson id 105 with curriculum number 5,
all stores empty. -/
def exampleDB : DB :=
  { students := [{ studentId := 1, siteId := 10, grade := some "G1",
                   state := StudentState.active, unenrollmentDate := none,
                   lastActivityDate := none, currentLesson := none }]
    groups := [{ groupId := 20, siteId := 10, name := "Group A",
                 isTutoringGroup := false }]
    teachers := [{ teacherId := 30, siteId := 10 }]
    lessons := [{ lessonId := 105, number := 5, name := "i" }]
    ledger := []
    entries := []
    progressRecords := []
    unenrollmentLogs := []
    archives := [] }

/-- A one-row batch against `exampleDB`: student 1 with the given outcome
on lesson 105, at the given date. -/
def exampleBatch (st : Status) (d : Nat) : BatchInput :=
  { siteId := 10
    groupId := 20
    teacherId := 30
    lessonId := 105
    entryDate := d
    entryType := none
    students := [(1, st)] }

/-- The state and response `create_lesson_entries` produces on
`exampleDB` for the batch `[(student 1, U)]` at date 102: the student is
flipped to unenrolled with that date and nothing else changes. -/
def exampleUnenrollResult : DB × BatchResult :=
  ({ exampleDB with
      students := [{ studentId := 1, siteId := 10, grade := some "G1",
                     state := StudentState.unenrolled,
                     unenrollmentDate := some 102, lastActivityDate := none,
                     currentLesson := none }] },
   { created := 0
     updated := 0
     unenrolled := 1
     errors := []
     lessonNumber := 5
     groupName := "Group A"
     entryDate := 102 })

/-- Unpack a batch outcome known to be successful (the fallback is inert
in every use). -/
def okOr (r : Except String (DB × BatchResult)) : DB × BatchResult :=
  match r with
  | Except.ok o => o
  | Except.error _ =>
    (exampleDB,
     { created := 0, updated := 0, unenrolled := 0, errors := [],
       lessonNumber := 0, groupName := "", entryDate := 0 })

/-- A batch against `exampleDB` mixing an unknown student (2) with the
known student 1 failing lesson 105. -/
def exampleMixedBatch : BatchInput :=
  { siteId := 10
    groupId := 20
    teacherId := 30
    lessonId := 105
    entryDate := 100
    entryType := none
    students := [(2, Status.Y), (1, Status.N)] }

/-! ## First-match update lemmas -/

section UpdateFirst

variable {α : Type} {β : Type} (p q : α → Bool) (f g : α → α)

theorem length_updateFirst (L : List α) : (updateFirst p f L).length = L.length := by
  induction L with
  | nil => rfl
  | cons x xs ih =>
    by_cases h : p x <;> simp [updateFirst, h, ih]

theorem updateFirst_of_forall_not (L : List α) (h : ∀ x ∈ L, p x = false) :
    updateFirst p f L = L := by
  induction L with
  | nil => rfl
  | cons x xs ih =>
    simp only [updateFirst, h x (List.mem_cons_self x xs)]
    simp [ih (fun y hy => h y (List.mem_cons_of_mem x hy))]

theorem map_updateFirst (m : α → β) (L : List α) (h : ∀ x, m (f x) = m x) :
    (updateFirst p f L).map m = L.map m := by
  induction L with
  | nil => rfl
  | cons x xs ih =>
    by_cases hp : p x <;> simp [updateFirst, hp, ih, h]

theorem any_updateFirst (L : List α) (h : ∀ x, q (f x) = q x) :
    (updateFirst p f L).any q = L.any q := by
  induction L with
  | nil => rfl
  | cons x xs ih =>
    by_cases hp : p x <;> simp [updateFirst, hp, ih, h]

theorem find?_updateFirst_self (L : List α) (x : α)
    (hpf : ∀ y, p (f y) = p y) (hx : L.find? p = some x) :
    (updateFirst p f L).find? p = some (f x) := by
  induction L with
  | nil => cases hx
  | cons y ys ih =>
    by_cases hp : p y
    · rw [List.find?_cons_of_pos _ hp] at hx
      cases hx
      rw [updateFirst, if_pos hp, List.find?_cons_of_pos _ (by rw [hpf]; exact hp)]
    · rw [List.find?_cons_of_neg _ hp] at hx
      rw [updateFirst, if_neg hp, List.find?_cons_of_neg _ hp]
      exact ih hx

theorem find?_updateFirst_other (L : List α)
    (hdisj : ∀ y, p y = true → q y = false) (hq : ∀ y, q (f y) = q y) :
    (updateFirst p f L).find? q = L.find? q := by
  induction L with
  | nil => rfl
  | cons x xs ih =>
    by_cases hp : p x
    · have hqx : q x = false := hdisj x hp
      rw [updateFirst, if_pos hp, List.find?_cons_of_neg _ (by simp [hq x, hqx]),
        List.find?_cons_of_neg _ (by simp [hqx])]
    · rw [updateFirst, if_neg hp]
      by_cases hqx : q x
      · rw [List.find?_cons_of_pos _ hqx, List.find?_cons_of_pos _ hqx]
      · rw [List.find?_cons_of_neg _ hqx, List.find?_cons_of_neg _ hqx]
        exact ih

theorem filter_updateFirst_other (L : List α)
    (hdisj : ∀ y, p y = true → q y = false) (hq : ∀ y, q (f y) = q y) :
    (updateFirst p f L).filter q = L.filter q := by
  induction L with
  | nil => rfl
  | cons x xs ih =>
    by_cases hp : p x
    · have hqx : q x = false := hdisj x hp
      simp [updateFirst, hp, List.filter_cons, hq x, hqx, ih]
    · simp [updateFirst, hp, List.filter_cons, ih]

theorem updateFirst_updateFirst (L : List α) (hpg : ∀ y, p (g y) = p y) :
    updateFirst p f (updateFirst p g L) = updateFirst p (fun y => f (g y)) L := by
  induction L with
  | nil => rfl
  | cons x xs ih =>
    by_cases hp : p x
    · simp [updateFirst, hp, hpg x]
    · simp [updateFirst, hp, ih]

theorem updateFirst_comm (L : List α)
    (hdisj : ∀ y, p y = true → q y = false)
    (hpg : ∀ y, p (g y) = p y) (hqf : ∀ y, q (f y) = q y) :
    updateFirst p f (updateFirst q g L) = updateFirst q g (updateFirst p f L) := by
  induction L with
  | nil => rfl
  | cons x xs ih =>
    by_cases hq : q x
    · have hp : p x = false := by
        by_contra hc
        have := hdisj x (by revert hc; cases p x <;> simp)
        simp [this] at hq
      simp [updateFirst, hq, hp, hpg x]
    · by_cases hp : p x
      · simp [updateFirst, hq, hp, hqf x]
      · simp [updateFirst, hq, hp, ih]

theorem updateFirst_append_left (L M : List α) (h : L.any p = true) :
    updateFirst p f (L ++ M) = updateFirst p f L ++ M := by
  induction L with
  | nil => simp at h
  | cons x xs ih =>
    by_cases hp : p x
    · simp [updateFirst, hp]
    · simp only [List.any_cons, hp, Bool.false_or] at h
      simp [updateFirst, hp, ih h]

theorem updateFirst_append_right (L M : List α) (h : ∀ x ∈ L, p x = false) :
    updateFirst p f (L ++ M) = L ++ updateFirst p f M := by
  induction L with
  | nil => rfl
  | cons x xs ih =>
    simp only [List.cons_append, updateFirst, h x (List.mem_cons_self x xs)]
    simp [ih (fun y hy => h y (List.mem_cons_of_mem x hy))]

theorem updateFirst_fixed (L : List α) (x : α)
    (hx : L.find? p = some x) (hfx : f x = x) : updateFirst p f L = L := by
  induction L with
  | nil => cases hx
  | cons y ys ih =>
    by_cases hp : p y
    · rw [List.find?_cons_of_pos _ hp] at hx
      cases hx
      simp [updateFirst, hp, hfx]
    · rw [List.find?_cons_of_neg _ hp] at hx
      simp [updateFirst, hp, ih hx]

end UpdateFirst

/-! ## Basic lemmas about the calculator -/

theorem smGet_nil (l : Nat) : smGet [] l = none := rfl

theorem countY_nil (lessons : List Nat) : countY [] lessons = 0 := by
  induction lessons with
  | nil => rfl
  | cons x xs ih =>
    simp [countY, smGet, List.filter] at ih ⊢

/-- Every grade config the resolver can produce is the fallback or one of
the ten catalog entries. -/
theorem resolveGradeConfig_mem (g : Option String) :
    resolveGradeConfig g = kgConfig ∨
      resolveGradeConfig g ∈ GRADE_LESSON_CONFIG.map Prod.snd := by
  unfold resolveGradeConfig
  cases h : gradeConfigLookup (g.getD "KG") with
  | none => left; rfl
  | some c =>
    right
    unfold gradeConfigLookup at h
    rcases Option.map_eq_some'.mp h with ⟨p, hp, rfl⟩
    exact List.mem_map_of_mem _ (List.mem_of_find?_eq_some hp)

/-- Catalog-wide bounds: every resolvable grade config has a non-empty
non-review minimum set, no larger than its benchmark denominator. -/
theorem gradeConfigBounds :
    ∀ cfg ∈ kgConfig :: GRADE_LESSON_CONFIG.map Prod.snd,
      0 < (nonReviewOf cfg.minLessons).length ∧
        (nonReviewOf cfg.minLessons).length ≤ cfg.benchmarkDenominator := by
  decide

theorem resolveGradeConfig_bounds (g : Option String) :
    0 < (nonReviewOf (resolveGradeConfig g).minLessons).length ∧
      (nonReviewOf (resolveGradeConfig g).minLessons).length ≤
        (resolveGradeConfig g).benchmarkDenominator := by
  have h := resolveGradeConfig_mem g
  rcases h with h | h
  · exact gradeConfigBounds _ (h ▸ List.mem_cons_self _ _)
  · exact gradeConfigBounds _ (List.mem_cons_of_mem _ h)

/-! ## C5 -/

/-- C5: for every grade configuration and every status map, each of the
four percentage metrics is 0 whenever its denominator is 0 (FullGrade%
being the pair (0, 0) when the grade has no current-year lessons), and on
the empty Ledger all four metrics are 0 — the computations are total, so
no division error can occur. -/
theorem C5_zero_denominators (cfg : GradeConfig) (m : StatusMap) :
    ((nonReviewOf cfg.minLessons).length = 0 → (calculateMinGrade m cfg).2 = 0) ∧
    (cfg.benchmarkDenominator = 0 → (calculateBenchmark m cfg).2 = 0) ∧
    (cfg.currentYearLessons = [] → calculateFullGrade m cfg = (0, 0)) ∧
    ((calculateFoundational []).2 = 0 ∧ (calculateMinGrade [] cfg).2 = 0 ∧
      (calculateFullGrade [] cfg).2 = 0 ∧ (calculateBenchmark [] cfg).2 = 0) := by
  refine ⟨?_, ?_, ?_, ?_, ?_, ?_, ?_⟩
  · intro h
    simp [calculateMinGrade, h]
  · intro h
    simp [calculateBenchmark, h]
  · intro h
    simp [calculateFullGrade, h]
  · simp [calculateFoundational, countY_nil]
  · simp [calculateMinGrade, countY_nil]
  · by_cases h : cfg.currentYearLessons.isEmpty
    · simp [calculateFullGrade, h]
    · simp [calculateFullGrade, h, countY_nil]
  · simp [calculateBenchmark, countY_nil]

/-- Witness for C5 at a concrete input: a config whose non-review minimum
set, benchmark denominator and current-year set are all degenerate. -/
theorem C5_zero_denominators_witness :
    (calculateMinGrade [(1, Status.Y)]
      { minLessons := [35], benchmarkDenominator := 0, isLetterBased := false }).2 = 0 ∧
    (calculateBenchmark [(1, Status.Y)]
      { minLessons := [35], benchmarkDenominator := 0, isLetterBased := false }).2 = 0 ∧
    calculateFullGrade [(1, Status.Y)]
      { minLessons := [35], benchmarkDenominator := 0, isLetterBased := false } = (0, 0) := by
  have h := C5_zero_denominators
    { minLessons := [35], benchmarkDenominator := 0, isLetterBased := false }
    [(1, Status.Y)]
  exact ⟨h.1 (by decide), h.2.1 rfl, h.2.2.1 rfl⟩

/-! ## C9 -/

/-- C9: an unknown grade label (or an unset grade) resolves to the `"KG"`
fallback configuration, and the whole progress computation for such a
student equals the computation against `"KG"` — it never fails. -/
theorem C9_unknown_grade_fallback (m : StatusMap) (gradeName : String)
    (h : ∀ p ∈ GRADE_LESSON_CONFIG, p.1 ≠ gradeName) :
    resolveGradeConfig (some gradeName) = kgConfig ∧
    resolveGradeConfig none = kgConfig ∧
    computeProgressData m (some gradeName) = computeProgressData m none := by
  have hnone : gradeConfigLookup gradeName = none := by
    unfold gradeConfigLookup
    rw [List.find?_eq_none.mpr]
    · rfl
    · intro p hp
      simpa using h p hp
  have h1 : resolveGradeConfig (some gradeName) = kgConfig := by
    unfold resolveGradeConfig
    simp [Option.getD, hnone]
  have h2 : resolveGradeConfig none = kgConfig := by decide
  refine ⟨h1, h2, ?_⟩
  unfold computeProgressData
  rw [h1, h2]

/-- Witness for C9 at the concrete unknown label `"G99"`. -/
theorem C9_unknown_grade_fallback_witness :
    resolveGradeConfig (some "G99") = kgConfig ∧
    resolveGradeConfig none = kgConfig ∧
    computeProgressData [(1, Status.Y)] (some "G99") =
      computeProgressData [(1, Status.Y)] none :=
  C9_unknown_grade_fallback [(1, Status.Y)] "G99" (by decide)

/-! ## C4 -/

/-- C4: for every student status map and every grade, MinGrade% is the Y
count over `min_lessons` minus the review lessons divided by the size of
that difference (times 100), Benchmark% divides the identical numerator by
the grade's benchmark denominator instead, and the `"G1"` catalog entry is
minimum lessons 1–34 and 42–53 with benchmark denominator 44. -/
theorem C4_min_grade_and_benchmark (m : StatusMap) (g : Option String) :
    (∀ l, l ∈ nonReviewOf (resolveGradeConfig g).minLessons ↔
        l ∈ (resolveGradeConfig g).minLessons ∧ l ∉ REVIEW_LESSONS) ∧
    calculateMinGrade m (resolveGradeConfig g) =
      (countY m (nonReviewOf (resolveGradeConfig g).minLessons),
       (countY m (nonReviewOf (resolveGradeConfig g).minLessons) : ℚ) /
         (nonReviewOf (resolveGradeConfig g).minLessons).length * 100) ∧
    calculateBenchmark m (resolveGradeConfig g) =
      (countY m (nonReviewOf (resolveGradeConfig g).minLessons),
       (countY m (nonReviewOf (resolveGradeConfig g).minLessons) : ℚ) /
         (resolveGradeConfig g).benchmarkDenominator * 100) ∧
    gradeConfigLookup "G1" =
      some { minLessons := List.range' 1 34 ++ List.range' 42 12
             currentYearLessons := List.range' 42 12
             benchmarkDenominator := 44
             isLetterBased := false } := by
  obtain ⟨hpos, hle⟩ := resolveGradeConfig_bounds g
  refine ⟨?_, ?_, ?_, ?_⟩
  · intro l
    simp [nonReviewOf, List.mem_filter]
  · simp [calculateMinGrade, hpos]
  · have hbpos : 0 < (resolveGradeConfig g).benchmarkDenominator := lt_of_lt_of_le hpos hle
    simp [calculateBenchmark, hbpos]
  · rfl

/-! ## C1 -/

/-- Equivalence of the code's override test (some review status recorded
and all recorded ones Y) with the claim's phrasing (some review recorded
among Y/N/A and every recorded review lesson Y). -/
theorem reviewOverride_iff (m : StatusMap) (reviews : List Nat) :
    ((!(reviews.filterMap (fun l => smGet m l)).isEmpty) = true ∧
      ∀ s ∈ reviews.filterMap (fun l => smGet m l), s = Status.Y) ↔
    ((∃ l ∈ reviews, recordedYNA (smGet m l)) ∧
      (∀ l ∈ reviews, smGet m l = none ∨ smGet m l = some Status.Y)) := by
  rw [Bool.not_eq_true', List.isEmpty_eq_false, ne_eq, ← List.isEmpty_iff,
    Bool.not_eq_true, Bool.eq_false_iff, ne_eq, List.isEmpty_iff]
  constructor
  · rintro ⟨hne, hall⟩
    obtain ⟨s, hs⟩ := List.exists_mem_of_ne_nil _ hne
    obtain ⟨l, hl, hsl⟩ := List.mem_filterMap.mp hs
    refine ⟨⟨l, hl, ?_⟩, ?_⟩
    · have : s = Status.Y := hall s hs
      exact Or.inl (by rw [hsl, this])
    · intro l' hl'
      cases hsm : smGet m l' with
      | none => exact Or.inl rfl
      | some s' =>
        right
        have : s' ∈ reviews.filterMap (fun l => smGet m l) :=
          List.mem_filterMap.mpr ⟨l', hl', hsm⟩
        rw [hall s' this]
  · rintro ⟨⟨l, hl, hrec⟩, hall⟩
    constructor
    · have : ∃ s, smGet m l = some s := by
        rcases hrec with h | h | h <;> exact ⟨_, h⟩
      obtain ⟨s, hs⟩ := this
      have : s ∈ reviews.filterMap (fun l => smGet m l) :=
        List.mem_filterMap.mpr ⟨l, hl, hs⟩
      exact List.ne_nil_of_mem this
    · intro s hs
      obtain ⟨l', hl', hsl'⟩ := List.mem_filterMap.mp hs
      rcases hall l' hl' with h | h
      · rw [h] at hsl'; cases hsl'
      · rw [h] at hsl'; cases hsl'; rfl

/-- C1: for every student status map and every list of section lessons,
the implemented section percentage equals the claim's case split: 100 when
the review subset is non-empty, some review lesson is recorded (Y, N, or
A) and every recorded review lesson is Y; otherwise the Y-ratio over the
non-review lessons, 0 when that subset is empty. -/
theorem C1_section_review_override (m : StatusMap) (sectionLessons : List Nat) :
    calculateSectionPercentage m sectionLessons =
      sectionPercentageClaim m sectionLessons := by
  simp only [calculateSectionPercentage, sectionPercentageClaim]
  refine if_congr ?_ rfl (if_congr (by rw [List.isEmpty_iff]) rfl rfl)
  rw [Bool.and_eq_true, Bool.and_eq_true, List.all_eq_true]
  simp only [decide_eq_true_eq, Bool.not_eq_true', List.isEmpty_eq_false, ne_eq]
  constructor
  · rintro ⟨⟨hr, hrs⟩, hall⟩
    have h2 := (reviewOverride_iff m _).mp ⟨by simpa using hrs, hall⟩
    exact ⟨hr, h2.1, h2.2⟩
  · rintro ⟨hr, hex, hall⟩
    have h2 := (reviewOverride_iff m _).mpr ⟨hex, hall⟩
    exact ⟨⟨hr, by simpa using h2.1⟩, h2.2⟩

/-! ## C8 -/

theorem countY_le_length (m : StatusMap) (lessons : List Nat) :
    countY m lessons ≤ lessons.length :=
  List.length_filter_le _ _

/-- Ratio percentages with a numerator bounded by the denominator lie in
[0, 100] (including the 0/0 = 0 convention of `ℚ`). -/
theorem pct_bound (c d : Nat) (h : c ≤ d) :
    0 ≤ (c : ℚ) / d * 100 ∧ (c : ℚ) / d * 100 ≤ 100 := by
  constructor
  · positivity
  · rcases Nat.eq_zero_or_pos d with rfl | hd
    · obtain rfl : c = 0 := Nat.le_zero.mp h
      norm_num
    · have hd' : (0 : ℚ) < d := by exact_mod_cast hd
      have hc : (c : ℚ) ≤ d := by exact_mod_cast h
      rw [div_mul_eq_mul_div, div_le_iff₀ hd']
      nlinarith

/-- Rounding to two decimals keeps [0, 100]. -/
theorem round2_bounds (q : ℚ) (h0 : 0 ≤ q) (h1 : q ≤ 100) :
    0 ≤ round2 q ∧ round2 q ≤ 100 := by
  have h0' : (0 : ℤ) ≤ round (q * 100) := by
    rw [round_eq]
    exact Int.le_floor.mpr (by push_cast; linarith)
  have h1' : round (q * 100) ≤ 10000 := by
    rw [round_eq]
    have hfl := Int.floor_le (q * 100 + 1 / 2)
    have hlt : ((⌊q * 100 + 1 / 2⌋ : ℤ) : ℚ) < 10001 := lt_of_le_of_lt hfl (by linarith)
    have : (⌊q * 100 + 1 / 2⌋ : ℤ) < 10001 := by exact_mod_cast hlt
    omega
  unfold round2
  constructor
  · apply div_nonneg _ (by norm_num)
    exact_mod_cast h0'
  · rw [div_le_iff₀ (by norm_num : (0 : ℚ) < 100)]
    calc ((round (q * 100) : ℤ) : ℚ) ≤ 10000 := by exact_mod_cast h1'
    _ = 100 * 100 := by norm_num

/-- Value shape of a section percentage: 100, 0, or a bounded ratio. -/
theorem sectionPercentage_cases (m : StatusMap) (lessons : List Nat) :
    calculateSectionPercentage m lessons = 100 ∨
    calculateSectionPercentage m lessons = 0 ∨
    ∃ c d : Nat, c ≤ d ∧ calculateSectionPercentage m lessons = (c : ℚ) / d * 100 := by
  simp only [calculateSectionPercentage]
  split
  · left; rfl
  · split
    · right; left; rfl
    · right; right; exact ⟨_, _, countY_le_length m _, rfl⟩

/-- Every section percentage the calculator emits lies in [0, 100]. -/
theorem sectionPercentage_bounds (m : StatusMap) (lessons : List Nat) :
    0 ≤ calculateSectionPercentage m lessons ∧
      calculateSectionPercentage m lessons ≤ 100 := by
  rcases sectionPercentage_cases m lessons with h | h | ⟨c, d, hcd, h⟩ <;> rw [h]
  · norm_num
  · norm_num
  · exact pct_bound c d hcd

/-- Counterexample to C8 as stated: with the single Ledger entry lesson
63 = Y, the stored progress record holds section 6 as the exact value
50/3 ≈ 16.667, which is not a two-decimal value — the 17 section
percentages are persisted unrounded. -/
theorem C8_counterexample :
    (applyProgressData (computeProgressData [(63, Status.Y)] (some "G1"))
        (blankProgressRec 1)).skillSections =
      calculateAllSkillSections [(63, Status.Y)] ∧
    (6, calculateSectionPercentage [(63, Status.Y)] (List.range' 63 6)) ∈
      (applyProgressData (computeProgressData [(63, Status.Y)] (some "G1"))
        (blankProgressRec 1)).skillSections ∧
    calculateSectionPercentage [(63, Status.Y)] (List.range' 63 6) = 50 / 3 ∧
    round2 ((50 : ℚ) / 3) ≠ (50 : ℚ) / 3 := by
  have hsec : (⟨6, "Reading Longer Words", List.range' 63 6⟩ : SkillSection) ∈
      SKILL_SECTIONS := by
    unfold SKILL_SECTIONS
    exact List.mem_cons_of_mem _ (List.mem_cons_of_mem _ (List.mem_cons_of_mem _
      (List.mem_cons_of_mem _ (List.mem_cons_of_mem _ (List.mem_cons_self _ _)))))
  have hpct : calculateSectionPercentage [(63, Status.Y)] (List.range' 63 6) = 50 / 3 := by
    have h1 : List.filter (fun l => REVIEW_LESSONS.contains l) (List.range' 63 6) =
        [] := by decide
    have h2 : List.filter (fun l => !(REVIEW_LESSONS.contains l)) (List.range' 63 6) =
        [63, 64, 65, 66, 67, 68] := by decide
    have h3 : countY [(63, Status.Y)] [63, 64, 65, 66, 67, 68] = 1 := by decide
    simp only [calculateSectionPercentage, h1, h2, h3]
    norm_num
  have hround : round ((50 : ℚ) / 3 * 100) = 1667 := by
    rw [round_eq]
    have heq : (50 : ℚ) / 3 * 100 + 1 / 2 = 10003 / 6 := by norm_num
    rw [heq, Int.floor_eq_iff]
    norm_num
  refine ⟨rfl, ?_, hpct, ?_⟩
  · show (6, calculateSectionPercentage [(63, Status.Y)] (List.range' 63 6)) ∈
      calculateAllSkillSections [(63, Status.Y)]
    exact List.mem_map_of_mem _ hsec
  · rw [round2, hround]
    norm_num

/-- C8 as amended: every percentage persisted into the progress record
lies in [0, 100]; the four metric percentages are rounded to two decimals
at the storage boundary, while the 17 section percentages are stored as
the exact computed values, without rounding. -/
theorem C8_amended_stored_percentages (m : StatusMap) (g : Option String)
    (pr : ProgressRec) :
    (applyProgressData (computeProgressData m g) pr).foundationalPct =
      round2 (computeProgressData m g).foundationalPct ∧
    (applyProgressData (computeProgressData m g) pr).minGradePct =
      round2 (computeProgressData m g).minGradePct ∧
    (applyProgressData (computeProgressData m g) pr).fullGradePct =
      round2 (computeProgressData m g).fullGradePct ∧
    (applyProgressData (computeProgressData m g) pr).benchmarkPct =
      round2 (computeProgressData m g).benchmarkPct ∧
    (applyProgressData (computeProgressData m g) pr).skillSections =
      (computeProgressData m g).skillSections ∧
    (0 ≤ (applyProgressData (computeProgressData m g) pr).foundationalPct ∧
      (applyProgressData (computeProgressData m g) pr).foundationalPct ≤ 100) ∧
    (0 ≤ (applyProgressData (computeProgressData m g) pr).minGradePct ∧
      (applyProgressData (computeProgressData m g) pr).minGradePct ≤ 100) ∧
    (0 ≤ (applyProgressData (computeProgressData m g) pr).fullGradePct ∧
      (applyProgressData (computeProgressData m g) pr).fullGradePct ≤ 100) ∧
    (0 ≤ (applyProgressData (computeProgressData m g) pr).benchmarkPct ∧
      (applyProgressData (computeProgressData m g) pr).benchmarkPct ≤ 100) ∧
    (∀ p ∈ (applyProgressData (computeProgressData m g) pr).skillSections,
      0 ≤ p.2 ∧ p.2 ≤ 100) := by
  have hfound : 0 ≤ (computeProgressData m g).foundationalPct ∧
      (computeProgressData m g).foundationalPct ≤ 100 := by
    have h := countY_le_length m FOUNDATIONAL_LESSONS
    have hlen : FOUNDATIONAL_LESSONS.length = 34 := by decide
    rw [hlen] at h
    simpa [computeProgressData, calculateFoundational] using pct_bound _ 34 h
  have hmin : 0 ≤ (computeProgressData m g).minGradePct ∧
      (computeProgressData m g).minGradePct ≤ 100 := by
    simp only [computeProgressData, calculateMinGrade]
    split
    · exact pct_bound _ _ (countY_le_length m _)
    · norm_num
  have hfull : 0 ≤ (computeProgressData m g).fullGradePct ∧
      (computeProgressData m g).fullGradePct ≤ 100 := by
    simp only [computeProgressData, calculateFullGrade]
    split
    · norm_num
    · split
      · exact pct_bound _ _ (countY_le_length m _)
      · norm_num
  have hbench : 0 ≤ (computeProgressData m g).benchmarkPct ∧
      (computeProgressData m g).benchmarkPct ≤ 100 := by
    obtain ⟨hpos, hle⟩ := resolveGradeConfig_bounds g
    simp only [computeProgressData, calculateBenchmark]
    split
    · exact pct_bound _ _ (le_trans (countY_le_length m _) hle)
    · norm_num
  refine ⟨rfl, rfl, rfl, rfl, rfl, ?_, ?_, ?_, ?_, ?_⟩
  · exact round2_bounds _ hfound.1 hfound.2
  · exact round2_bounds _ hmin.1 hmin.2
  · exact round2_bounds _ hfull.1 hfull.2
  · exact round2_bounds _ hbench.1 hbench.2
  · intro p hp
    simp only [applyProgressData, computeProgressData, calculateAllSkillSections] at hp
    obtain ⟨s, _, rfl⟩ := List.mem_map.mp hp
    exact sectionPercentage_bounds m s.lessons

/-! ## Reduction and frame lemmas for the ingestion pipeline -/

theorem processStudents_nil (ctx : BatchCtx) (db : DB) (acc : Accum) :
    processStudents ctx db acc [] = (db, acc) := rfl

theorem processStudents_cons (ctx : BatchCtx) (db : DB) (acc : Accum)
    (sid : Nat) (st : Status) (rest : List (Nat × Status)) :
    processStudents ctx db acc ((sid, st) :: rest) =
      processStudents ctx (processStudent ctx db acc sid st).1
        (processStudent ctx db acc sid st).2 rest := rfl

theorem recalcAll_nil (db : DB) : recalcAll db [] = db := rfl

theorem recalcAll_cons (db : DB) (s : Nat) (rest : List Nat) :
    recalcAll db (s :: rest) = recalcAll (calculateStudentProgress db s) rest := rfl

/-- The per-student step never touches groups, teachers, lessons,
archives, unenrollment logs, or progress records. -/
theorem processStudent_frame (ctx : BatchCtx) (db : DB) (acc : Accum)
    (sid : Nat) (st : Status) :
    (processStudent ctx db acc sid st).1.groups = db.groups ∧
    (processStudent ctx db acc sid st).1.teachers = db.teachers ∧
    (processStudent ctx db acc sid st).1.lessons = db.lessons ∧
    (processStudent ctx db acc sid st).1.archives = db.archives ∧
    (processStudent ctx db acc sid st).1.unenrollmentLogs = db.unenrollmentLogs ∧
    (processStudent ctx db acc sid st).1.progressRecords = db.progressRecords := by
  unfold processStudent
  cases findStudent db sid ctx.siteId with
  | none => exact ⟨rfl, rfl, rfl, rfl, rfl, rfl⟩
  | some s =>
    by_cases h : st = Status.U
    · simp only [if_pos h]
      exact ⟨rfl, rfl, rfl, rfl, rfl, rfl⟩
    · simp only [if_neg h]
      exact ⟨rfl, rfl, rfl, rfl, rfl, rfl⟩

/-- The whole per-student loop never touches groups, teachers, lessons,
archives, unenrollment logs, or progress records. -/
theorem processStudents_frame (ctx : BatchCtx) (students : List (Nat × Status)) :
    ∀ (db : DB) (acc : Accum),
    (processStudents ctx db acc students).1.groups = db.groups ∧
    (processStudents ctx db acc students).1.teachers = db.teachers ∧
    (processStudents ctx db acc students).1.lessons = db.lessons ∧
    (processStudents ctx db acc students).1.archives = db.archives ∧
    (processStudents ctx db acc students).1.unenrollmentLogs = db.unenrollmentLogs ∧
    (processStudents ctx db acc students).1.progressRecords = db.progressRecords := by
  induction students with
  | nil => intro db acc; exact ⟨rfl, rfl, rfl, rfl, rfl, rfl⟩
  | cons hd tl ih =>
    intro db acc
    obtain ⟨sid, st⟩ := hd
    rw [processStudents_cons]
    obtain ⟨h1, h2, h3, h4, h5, h6⟩ := processStudent_frame ctx db acc sid st
    obtain ⟨g1, g2, g3, g4, g5, g6⟩ :=
      ih (processStudent ctx db acc sid st).1 (processStudent ctx db acc sid st).2
    exact ⟨g1.trans h1, g2.trans h2, g3.trans h3, g4.trans h4, g5.trans h5, g6.trans h6⟩

/-- Recalculation never touches groups, teachers, lessons, archives,
unenrollment logs, entries, or the Ledger. -/
theorem calculateStudentProgress_frame (db : DB) (sid : Nat) :
    (calculateStudentProgress db sid).groups = db.groups ∧
    (calculateStudentProgress db sid).teachers = db.teachers ∧
    (calculateStudentProgress db sid).lessons = db.lessons ∧
    (calculateStudentProgress db sid).archives = db.archives ∧
    (calculateStudentProgress db sid).unenrollmentLogs = db.unenrollmentLogs ∧
    (calculateStudentProgress db sid).entries = db.entries ∧
    (calculateStudentProgress db sid).ledger = db.ledger := by
  unfold calculateStudentProgress
  cases db.students.find? (fun s => s.studentId == sid) with
  | none => exact ⟨rfl, rfl, rfl, rfl, rfl, rfl, rfl⟩
  | some stu =>
    simp only [upsertProgressRecord, updateStudent]
    split <;> exact ⟨rfl, rfl, rfl, rfl, rfl, rfl, rfl⟩

theorem recalcAll_frame (sids : List Nat) :
    ∀ db : DB,
    (recalcAll db sids).groups = db.groups ∧
    (recalcAll db sids).teachers = db.teachers ∧
    (recalcAll db sids).lessons = db.lessons ∧
    (recalcAll db sids).archives = db.archives ∧
    (recalcAll db sids).unenrollmentLogs = db.unenrollmentLogs ∧
    (recalcAll db sids).entries = db.entries ∧
    (recalcAll db sids).ledger = db.ledger := by
  induction sids with
  | nil => intro db; exact ⟨rfl, rfl, rfl, rfl, rfl, rfl, rfl⟩
  | cons s rest ih =>
    intro db
    rw [recalcAll_cons]
    obtain ⟨h1, h2, h3, h4, h5, h6, h7⟩ := calculateStudentProgress_frame db s
    obtain ⟨g1, g2, g3, g4, g5, g6, g7⟩ := ih (calculateStudentProgress db s)
    exact ⟨g1.trans h1, g2.trans h2, g3.trans h3, g4.trans h4, g5.trans h5,
      g6.trans h6, g7.trans h7⟩

/-- Shape of a successful batch: the three validations succeeded and the
output is the loop followed by the recalculation pass. -/
theorem processBatch_ok_elim {db : DB} {inp : BatchInput} {out : DB × BatchResult}
    (h : processBatch db inp = Except.ok out) :
    ∃ group teacher lesson,
      findGroup db inp.groupId inp.siteId = some group ∧
      findTeacher db inp.teacherId inp.siteId = some teacher ∧
      findLesson db inp.lessonId = some lesson ∧
      lesson.lessonId = inp.lessonId ∧
      out.1 = recalcAll
          (processStudents (batchCtx inp group teacher lesson) db {} inp.students).1
          (processStudents (batchCtx inp group teacher lesson) db {} inp.students).2.recalc ∧
      out.2 =
        { created := (processStudents (batchCtx inp group teacher lesson) db {} inp.students).2.created
          updated := (processStudents (batchCtx inp group teacher lesson) db {} inp.students).2.updated
          unenrolled := (processStudents (batchCtx inp group teacher lesson) db {} inp.students).2.unenrolled
          errors := (processStudents (batchCtx inp group teacher lesson) db {} inp.students).2.errors
          lessonNumber := lesson.number
          groupName := group.name
          entryDate := inp.entryDate } := by
  unfold processBatch at h
  cases hg : findGroup db inp.groupId inp.siteId with
  | none => rw [hg] at h; cases h
  | some group =>
    rw [hg] at h
    cases ht : findTeacher db inp.teacherId inp.siteId with
    | none => rw [ht] at h; cases h
    | some teacher =>
      rw [ht] at h
      cases hl : findLesson db inp.lessonId with
      | none => rw [hl] at h; cases h
      | some lesson =>
        rw [hl] at h
        have hid : lesson.lessonId = inp.lessonId := by
          have h2 := List.find?_some hl
          simpa using h2
        refine ⟨group, teacher, lesson, rfl, rfl, rfl, hid, ?_, ?_⟩
        · cases h; rfl
        · cases h; rfl

/-- The ingestion endpoint never writes an unenrollment log or an archive
(nor does the recalculation pass), whatever the batch contains. -/
theorem ingestion_preserves_archives {db : DB} {inp : BatchInput}
    {out : DB × BatchResult} (h : processBatch db inp = Except.ok out) :
    out.1.archives = db.archives ∧ out.1.unenrollmentLogs = db.unenrollmentLogs := by
  obtain ⟨g, t, l, _, _, _, _, hout, _⟩ := processBatch_ok_elim h
  rw [hout]
  obtain ⟨_, _, _, h4, h5, _, _⟩ := recalcAll_frame _ _
  obtain ⟨_, _, _, g4, g5, _⟩ := processStudents_frame _ _ db {}
  exact ⟨h4.trans g4, h5.trans g5⟩

/-! ## C2 -/

/-- C2 fails on the code: evaluating `create_lesson_entries` on a batch
whose single pair is student 1 with outcome U (date 102) marks the student
unenrolled with the submission date (the derived `is_active` property then
reads false) and writes no Ledger row, but — in contradiction with the
claim — creates no archive and no unenrollment record
(`lesson_entries.py` line 110 is `TODO: Create unenrollment log and
archive`, and `UnenrollmentService` is never invoked from the endpoint).
The second conjunct shows that the unenrollment service the claim
describes cannot supply them either: called on the same student it raises
(`student.is_active = False` on the getter-only property, line 77 of
`unenrollment_service.py`) before committing anything. -/
theorem C2_unenrolled_without_archive :
    (processBatch exampleDB (exampleBatch Status.U 102)).toOption.map (fun out =>
        (out.1.archives.length, out.1.unenrollmentLogs.length,
         out.1.ledger.length, out.1.entries.length, out.2.unenrolled,
         (findStudentById out.1 1).map (fun s =>
           (s.state, s.unenrollmentDate, s.currentLesson, s.lastActivityDate,
            s.isActive)))) =
      some (0, 0, 0, 0, 1,
        some (StudentState.unenrolled, some 102, none, none, false)) ∧
    (unenrollStudent exampleDB 500 600 1 none 102 none none).toOption = none := by
  exact ⟨by rfl, by rfl⟩

/-! ## Student-lookup and filter stability lemmas -/

/-- The U-branch mutation touches only the enrollment state and the
unenrollment date (the derived `is_active` view changes with the state). -/
theorem markUnenrolled_frame (d : Nat) (s : StudentRec) :
    (markUnenrolled d s).studentId = s.studentId ∧
    (markUnenrolled d s).siteId = s.siteId ∧
    (markUnenrolled d s).grade = s.grade ∧
    (markUnenrolled d s).lastActivityDate = s.lastActivityDate ∧
    (markUnenrolled d s).currentLesson = s.currentLesson :=
  ⟨rfl, rfl, rfl, rfl, rfl⟩

theorem markUnenrolled_idem (d : Nat) (s : StudentRec) :
    markUnenrolled d (markUnenrolled d s) = markUnenrolled d s := rfl

theorem advanceCurrentLesson_keys (n : Nat) (s : StudentRec) :
    (advanceCurrentLesson n s).studentId = s.studentId ∧
    (advanceCurrentLesson n s).siteId = s.siteId := by
  refine ⟨?_, ?_⟩ <;>
  · unfold advanceCurrentLesson
    split
    · rfl
    · split <;> rfl

theorem updateStudent_studentKeys (db : DB) (sid : Nat) (f : StudentRec → StudentRec)
    (hf : ∀ s, (f s).studentId = s.studentId ∧ (f s).siteId = s.siteId) :
    (updateStudent db sid f).students.map (fun s => (s.studentId, s.siteId)) =
      db.students.map (fun s => (s.studentId, s.siteId)) :=
  map_updateFirst _ _ _ _ (fun x => by rw [(hf x).1, (hf x).2])

/-- The per-student step never changes which (student id, site id) pairs
exist, in which order. -/
theorem processStudent_studentKeys (ctx : BatchCtx) (db : DB) (acc : Accum)
    (sid : Nat) (st : Status) :
    (processStudent ctx db acc sid st).1.students.map (fun s => (s.studentId, s.siteId)) =
      db.students.map (fun s => (s.studentId, s.siteId)) := by
  unfold processStudent
  cases findStudent db sid ctx.siteId with
  | none => rfl
  | some s =>
    by_cases h : st = Status.U
    · simp only [if_pos h]
      exact updateStudent_studentKeys _ _ _ (fun x => ⟨rfl, rfl⟩)
    · simp only [if_neg h]
      refine updateStudent_studentKeys _ _ _ (fun x => ?_)
      by_cases hy : st = Status.Y
      · simp only [if_pos hy]
        exact advanceCurrentLesson_keys _ _
      · simp [hy]

theorem processStudents_studentKeys (ctx : BatchCtx) (students : List (Nat × Status)) :
    ∀ (db : DB) (acc : Accum),
      (processStudents ctx db acc students).1.students.map (fun s => (s.studentId, s.siteId)) =
        db.students.map (fun s => (s.studentId, s.siteId)) := by
  induction students with
  | nil => intro db acc; rfl
  | cons hd tl ih =>
    intro db acc
    obtain ⟨sid, st⟩ := hd
    rw [processStudents_cons]
    rw [ih, processStudent_studentKeys]

/-- Two states with the same (student id, site id) table resolve the same
students (successfully or not). -/
theorem findStudent_isSome_congr {dbA dbB : DB} (sid site : Nat)
    (h : dbA.students.map (fun s => (s.studentId, s.siteId)) =
      dbB.students.map (fun s => (s.studentId, s.siteId))) :
    (findStudent dbA sid site).isSome = (findStudent dbB sid site).isSome := by
  have key : ∀ L : List StudentRec,
      (L.find? (fun s => s.studentId == sid && s.siteId == site)).isSome =
        ((L.map (fun s => (s.studentId, s.siteId))).find?
          (fun k => k.1 == sid && k.2 == site)).isSome := by
    intro L
    rw [List.find?_map]
    have hp : ((fun k : Nat × Nat => k.1 == sid && k.2 == site) ∘
        fun s : StudentRec => (s.studentId, s.siteId)) =
        (fun s : StudentRec => s.studentId == sid && s.siteId == site) := rfl
    rw [hp]
    simp
  unfold findStudent
  rw [key, key, h]

/-- A successful site-filtered lookup implies a successful id-only lookup. -/
theorem findStudentById_isSome_of_findStudent {db : DB} {sid site : Nat}
    (h : (findStudent db sid site).isSome = true) :
    (findStudentById db sid).isSome = true := by
  unfold findStudent at h
  unfold findStudentById
  obtain ⟨s, hs⟩ := Option.isSome_iff_exists.mp h
  have hmem := List.mem_of_find?_eq_some hs
  have hpred := List.find?_some hs
  simp only [Bool.and_eq_true] at hpred
  have : (List.find? (fun s => s.studentId == sid) db.students).isSome := by
    rw [List.find?_isSome]
    exact ⟨s, hmem, hpred.1⟩
  exact this

theorem findStudentById_updateStudent_other (db : DB) (sid₂ sid : Nat)
    (f : StudentRec → StudentRec) (hne : sid₂ ≠ sid)
    (hf : ∀ s, (f s).studentId = s.studentId) :
    findStudentById (updateStudent db sid₂ f) sid = findStudentById db sid := by
  unfold findStudentById updateStudent
  apply find?_updateFirst_other
  · intro y hy
    simp only [beq_iff_eq] at hy
    simp [hy, beq_eq_false_iff_ne, hne]
  · intro y
    rw [hf y]

theorem findStudentById_updateStudent_self (db : DB) (sid : Nat)
    (f : StudentRec → StudentRec) (s : StudentRec)
    (hs : findStudentById db sid = some s)
    (hf : ∀ x, (f x).studentId = x.studentId) :
    findStudentById (updateStudent db sid f) sid = some (f s) := by
  unfold findStudentById updateStudent
  unfold findStudentById at hs
  exact find?_updateFirst_self _ _ _ _ (fun y => by rw [hf y]) hs

theorem filter_upsertLedger_other (L : List LedgerRec) (ctx : BatchCtx)
    (sid₂ : Nat) (st : Status) (sid : Nat) (hne : sid₂ ≠ sid) :
    (upsertLedger L ctx sid₂ st).1.filter (fun r => r.studentId == sid) =
      L.filter (fun r => r.studentId == sid) := by
  unfold upsertLedger
  split
  · apply filter_updateFirst_other
    · intro y hy
      unfold ledgerKeyMatch at hy
      simp only [Bool.and_eq_true, beq_iff_eq] at hy
      simp [hy.1.1, beq_eq_false_iff_ne, hne]
    · intro y
      rfl
  · rw [List.filter_append]
    have hb : (sid₂ == sid) = false := beq_eq_false_iff_ne.mpr hne
    simp [List.filter, hb]

theorem filter_upsertProgress_other (db : DB) (sid₂ : Nat) (d : ProgressData)
    (sid : Nat) (hne : sid₂ ≠ sid) :
    (upsertProgressRecord db sid₂ d).progressRecords.filter (fun x => x.studentId == sid) =
      db.progressRecords.filter (fun x => x.studentId == sid) := by
  unfold upsertProgressRecord
  split
  · apply filter_updateFirst_other
    · intro y hy
      unfold progressKeyMatch at hy
      simp only [Bool.and_eq_true, beq_iff_eq] at hy
      simp [hy.1, beq_eq_false_iff_ne, hne]
    · intro y
      rfl
  · rw [List.filter_append]
    have hb : (sid₂ == sid) = false := beq_eq_false_iff_ne.mpr hne
    simp [List.filter, applyProgressData, blankProgressRec, hb]

/-! ## Frame of the loop at a student submitted only with U -/

/-- One loop step, seen from a student `A` that the step either does not
touch or unenrolls: `A`'s Ledger rows, entries and queue membership are
untouched, and `A`'s student row is unchanged or exactly `markUnenrolled`d. -/
theorem processStudent_U_step (ctx : BatchCtx) (db : DB) (acc : Accum)
    (sid₀ : Nat) (st₀ : Status) (A : Nat) (hU₀ : sid₀ = A → st₀ = Status.U) :
    (processStudent ctx db acc sid₀ st₀).1.ledger.filter (fun r => r.studentId == A) =
      db.ledger.filter (fun r => r.studentId == A) ∧
    (processStudent ctx db acc sid₀ st₀).1.entries.filter (fun e => e.studentId == A) =
      db.entries.filter (fun e => e.studentId == A) ∧
    (A ∉ acc.recalc → A ∉ (processStudent ctx db acc sid₀ st₀).2.recalc) ∧
    (findStudentById (processStudent ctx db acc sid₀ st₀).1 A = findStudentById db A ∨
      findStudentById (processStudent ctx db acc sid₀ st₀).1 A =
        (findStudentById db A).map (markUnenrolled ctx.entryDate)) ∧
    (sid₀ = A → (findStudent db A ctx.siteId).isSome = true →
      findStudentById (processStudent ctx db acc sid₀ st₀).1 A =
        (findStudentById db A).map (markUnenrolled ctx.entryDate)) := by
  unfold processStudent
  cases hfs : findStudent db sid₀ ctx.siteId with
  | none =>
    refine ⟨rfl, rfl, fun h => h, Or.inl rfl, ?_⟩
    intro h1 hres
    rw [h1] at hfs
    rw [hfs] at hres
    cases hres
  | some s =>
    by_cases hu : st₀ = Status.U
    · simp only [if_pos hu]
      have hmarkId : ∀ x : StudentRec,
          (markUnenrolled ctx.entryDate x).studentId = x.studentId := fun _ => rfl
      have hself : (findStudent db A ctx.siteId).isSome = true → sid₀ = A →
          findStudentById (updateStudent db sid₀ (markUnenrolled ctx.entryDate)) A =
            (findStudentById db A).map (markUnenrolled ctx.entryDate) := by
        intro hres h1
        subst h1
        have hid : (findStudentById db sid₀).isSome = true :=
          findStudentById_isSome_of_findStudent hres
        obtain ⟨y, hy⟩ := Option.isSome_iff_exists.mp hid
        rw [findStudentById_updateStudent_self db sid₀ _ y hy hmarkId, hy]
        rfl
      refine ⟨rfl, rfl, fun h => h, ?_, ?_⟩
      · by_cases hA : sid₀ = A
        · subst hA
          right
          have hres : (findStudent db sid₀ ctx.siteId).isSome = true := by
            rw [hfs]; rfl
          exact hself hres rfl
        · left
          exact findStudentById_updateStudent_other db sid₀ A _ hA hmarkId
      · intro h1 hres
        exact hself hres h1
    · simp only [if_neg hu]
      have hA : sid₀ ≠ A := by
        intro h
        exact hu (hU₀ h)
      have hfId : ∀ x : StudentRec,
          ((fun s2 =>
            let s1 := { s2 with lastActivityDate := some ctx.entryDate }
            if st₀ = Status.Y then advanceCurrentLesson ctx.lessonNumber s1 else s1) x).studentId
            = x.studentId := by
        intro x
        by_cases hy : st₀ = Status.Y
        · simp only [if_pos hy]
          exact (advanceCurrentLesson_keys _ _).1
        · simp only [if_neg hy]
      refine ⟨?_, ?_, ?_, ?_, ?_⟩
      · show ((upsertLedger (db.ledger) ctx sid₀ st₀).1.filter (fun r => r.studentId == A)) =
          db.ledger.filter (fun r => r.studentId == A)
        exact filter_upsertLedger_other _ _ _ _ _ hA
      · show ((db.entries ++ [_]).filter (fun e => e.studentId == A)) =
          db.entries.filter (fun e => e.studentId == A)
        rw [List.filter_append]
        have hb : (sid₀ == A) = false := beq_eq_false_iff_ne.mpr hA
        simp [List.filter, hb]
      · intro hnot
        show A ∉ (if (upsertLedger (db.ledger) ctx sid₀ st₀).2 then
            { acc with updated := acc.updated + 1 }
          else { acc with created := acc.created + 1 }).recalc ++ [sid₀]
        have : A ∉ (if (upsertLedger (db.ledger) ctx sid₀ st₀).2 then
            { acc with updated := acc.updated + 1 }
          else { acc with created := acc.created + 1 }).recalc := by
          split <;> exact hnot
        intro hmem
        rcases List.mem_append.mp hmem with h | h
        · exact this h
        · rw [List.mem_singleton] at h
          exact hA h.symm
      · left
        exact findStudentById_updateStudent_other _ sid₀ A _ hA hfId
      · intro h1
        exact absurd h1 hA

/-- The whole loop, seen from a student `A` every one of whose batch rows
is U. -/
theorem processStudents_U_frame (ctx : BatchCtx) (A : Nat)
    (students : List (Nat × Status)) :
    ∀ (db : DB) (acc : Accum),
      (∀ st, (A, st) ∈ students → st = Status.U) →
      (processStudents ctx db acc students).1.ledger.filter (fun r => r.studentId == A) =
        db.ledger.filter (fun r => r.studentId == A) ∧
      (processStudents ctx db acc students).1.entries.filter (fun e => e.studentId == A) =
        db.entries.filter (fun e => e.studentId == A) ∧
      (A ∉ acc.recalc → A ∉ (processStudents ctx db acc students).2.recalc) ∧
      (findStudentById (processStudents ctx db acc students).1 A = findStudentById db A ∨
        findStudentById (processStudents ctx db acc students).1 A =
          (findStudentById db A).map (markUnenrolled ctx.entryDate)) ∧
      ((A, Status.U) ∈ students → (findStudent db A ctx.siteId).isSome = true →
        findStudentById (processStudents ctx db acc students).1 A =
          (findStudentById db A).map (markUnenrolled ctx.entryDate)) := by
  have hmm : (markUnenrolled ctx.entryDate) ∘ (markUnenrolled ctx.entryDate) =
      markUnenrolled ctx.entryDate := funext (markUnenrolled_idem ctx.entryDate)
  induction students with
  | nil =>
    intro db acc _
    exact ⟨rfl, rfl, fun h => h, Or.inl rfl, fun hmem => absurd hmem (by simp)⟩
  | cons hd tl ih =>
    intro db acc hU
    obtain ⟨sid₀, st₀⟩ := hd
    rw [processStudents_cons]
    have hU₀ : sid₀ = A → st₀ = Status.U := by
      intro h
      exact hU st₀ (by rw [← h]; exact List.mem_cons_self _ _)
    have hUtl : ∀ st, (A, st) ∈ tl → st = Status.U :=
      fun st hst => hU st (List.mem_cons_of_mem _ hst)
    obtain ⟨s1, s2, s3, s4, s5⟩ := processStudent_U_step ctx db acc sid₀ st₀ A hU₀
    obtain ⟨i1, i2, i3, i4, i5⟩ :=
      ih (processStudent ctx db acc sid₀ st₀).1 (processStudent ctx db acc sid₀ st₀).2 hUtl
    have hkeys := processStudent_studentKeys ctx db acc sid₀ st₀
    have hressame : (findStudent (processStudent ctx db acc sid₀ st₀).1 A ctx.siteId).isSome =
        (findStudent db A ctx.siteId).isSome :=
      findStudent_isSome_congr A ctx.siteId hkeys
    refine ⟨i1.trans s1, i2.trans s2, fun h => i3 (s3 h), ?_, ?_⟩
    · rcases i4 with h | h <;> rcases s4 with h' | h'
      · exact Or.inl (h.trans h')
      · exact Or.inr (h.trans h')
      · exact Or.inr (by rw [h, h'])
      · right
        rw [h, h', Option.map_map, hmm]
    · intro hmem hres
      rcases List.mem_cons.mp hmem with hhd | htl
      · have h1 : sid₀ = A := ((Prod.mk.injEq _ _ _ _).mp hhd).1.symm
        have hstep := s5 h1 hres
        rcases i4 with h | h
        · rw [h, hstep]
        · rw [h, hstep, Option.map_map, hmm]
      · have hres' : (findStudent (processStudent ctx db acc sid₀ st₀).1 A ctx.siteId).isSome = true := by
          rw [hressame]; exact hres
        have htail := i5 htl hres'
        rcases s4 with h | h
        · rw [htail, h]
        · rw [htail, h, Option.map_map, hmm]

/-- Recalculation for a set of students not containing `A` leaves `A`'s
student row and cached progress record untouched. -/
theorem recalcAll_other_frame (A : Nat) (sids : List Nat) :
    ∀ db : DB, A ∉ sids →
      findStudentById (recalcAll db sids) A = findStudentById db A ∧
      (recalcAll db sids).progressRecords.filter (fun x => x.studentId == A) =
        db.progressRecords.filter (fun x => x.studentId == A) := by
  induction sids with
  | nil => intro db _; exact ⟨rfl, rfl⟩
  | cons s rest ih =>
    intro db hA
    have hsA : s ≠ A := fun h => hA (by rw [h]; exact List.mem_cons_self _ _)
    have hrest : A ∉ rest := fun h => hA (List.mem_cons_of_mem _ h)
    rw [recalcAll_cons]
    obtain ⟨i1, i2⟩ := ih (calculateStudentProgress db s) hrest
    have hstep : findStudentById (calculateStudentProgress db s) A = findStudentById db A ∧
        (calculateStudentProgress db s).progressRecords.filter (fun x => x.studentId == A) =
          db.progressRecords.filter (fun x => x.studentId == A) := by
      unfold calculateStudentProgress
      cases db.students.find? (fun x => x.studentId == s) with
      | none => exact ⟨rfl, rfl⟩
      | some stu =>
        constructor
        · have h1 : findStudentById (upsertProgressRecord
              (updateStudent db s (fun x => { x with currentLesson :=
                (computeProgressData (statusMapOf db s) stu.grade).currentLesson })) s
              (computeProgressData (statusMapOf db s) stu.grade)) A =
              findStudentById (updateStudent db s (fun x => { x with currentLesson :=
                (computeProgressData (statusMapOf db s) stu.grade).currentLesson })) A := by
            unfold upsertProgressRecord findStudentById
            split <;> rfl
          rw [h1]
          exact findStudentById_updateStudent_other db s A _ hsA (fun x => rfl)
        · have h2 : (upsertProgressRecord
              (updateStudent db s (fun x => { x with currentLesson :=
                (computeProgressData (statusMapOf db s) stu.grade).currentLesson })) s
              (computeProgressData (statusMapOf db s) stu.grade)).progressRecords.filter
                (fun x => x.studentId == A) =
              (updateStudent db s (fun x => { x with currentLesson :=
                (computeProgressData (statusMapOf db s) stu.grade).currentLesson
                })).progressRecords.filter (fun x => x.studentId == A) :=
            filter_upsertProgress_other _ s _ A hsA
          rw [h2]
          rfl
    exact ⟨i1.trans hstep.1, i2.trans hstep.2⟩

/-! ## C10 -/

/-- C10: a student submitted (only) with outcome U in a successful batch
is short-circuited: apart from the enrollment state and the unenrollment
date (set to the submission date), the student row is exactly what it was
— same current lesson, same last-activity date — no lesson entry is added
for the student, the student's Ledger rows are untouched, and the
student's cached progress records are exactly what they were before the
submission. -/
theorem C10_unenroll_frame_effect (db : DB) (inp : BatchInput)
    (out : DB × BatchResult) (sid : Nat)
    (hok : processBatch db inp = Except.ok out)
    (hres : (findStudent db sid inp.siteId).isSome = true)
    (hmem : (sid, Status.U) ∈ inp.students)
    (hU : ∀ st, (sid, st) ∈ inp.students → st = Status.U) :
    findStudentById out.1 sid =
      (findStudentById db sid).map (markUnenrolled inp.entryDate) ∧
    (∀ s, findStudentById db sid = some s →
      findStudentById out.1 sid = some
        { s with state := StudentState.unenrolled
                 unenrollmentDate := some inp.entryDate }) ∧
    out.1.entries.filter (fun e => e.studentId == sid) =
      db.entries.filter (fun e => e.studentId == sid) ∧
    out.1.ledger.filter (fun r => r.studentId == sid) =
      db.ledger.filter (fun r => r.studentId == sid) ∧
    out.1.progressRecords.filter (fun p => p.studentId == sid) =
      db.progressRecords.filter (fun p => p.studentId == sid) := by
  obtain ⟨group, teacher, lesson, _, _, _, _, hout, _⟩ := processBatch_ok_elim hok
  obtain ⟨l1, l2, l3, _, l5⟩ :=
    processStudents_U_frame (batchCtx inp group teacher lesson) sid inp.students db {} hU
  have hnotin : sid ∉ (processStudents (batchCtx inp group teacher lesson) db {} inp.students).2.recalc :=
    l3 (by simp [Accum])
  obtain ⟨r1, r2⟩ := recalcAll_other_frame sid _ _ hnotin
  obtain ⟨_, _, _, _, _, re, rl⟩ := recalcAll_frame
    (processStudents (batchCtx inp group teacher lesson) db {} inp.students).2.recalc
    (processStudents (batchCtx inp group teacher lesson) db {} inp.students).1
  obtain ⟨_, _, _, _, _, pp⟩ := processStudents_frame (batchCtx inp group teacher lesson)
    inp.students db {}
  have hfin : findStudentById out.1 sid =
      (findStudentById db sid).map (markUnenrolled inp.entryDate) := by
    rw [hout, r1]
    exact l5 hmem hres
  refine ⟨hfin, ?_, ?_, ?_, ?_⟩
  · intro s hs
    rw [hfin, hs]
    rfl
  · rw [hout, re, l2]
  · rw [hout, rl, l1]
  · rw [hout, r2, pp]

/-- Witness for C10 at the concrete one-student U batch. -/
theorem C10_unenroll_frame_effect_witness :
    findStudentById exampleUnenrollResult.1 1 =
      (findStudentById exampleDB 1).map (markUnenrolled 102) ∧
    exampleUnenrollResult.1.ledger.filter (fun r => r.studentId == 1) =
      exampleDB.ledger.filter (fun r => r.studentId == 1) ∧
    exampleUnenrollResult.1.progressRecords.filter (fun p => p.studentId == 1) =
      exampleDB.progressRecords.filter (fun p => p.studentId == 1) := by
  have h := C10_unenroll_frame_effect exampleDB (exampleBatch Status.U 102)
    exampleUnenrollResult 1 (by rfl) (by rfl)
    (List.mem_singleton.mpr rfl)
    (fun st hst => ((Prod.mk.injEq _ _ _ _).mp (List.mem_singleton.mp hst)).2)
  exact ⟨h.1, h.2.2.2.1, h.2.2.2.2⟩

/-! ## Branch characterizations of the per-student step -/

theorem processStudent_proj_none (ctx : BatchCtx) (db : DB) (acc : Accum)
    (sid₀ : Nat) (st₀ : Status) (hfs : findStudent db sid₀ ctx.siteId = none) :
    processStudent ctx db acc sid₀ st₀ =
      (db, { acc with errors := acc.errors ++ [(sid₀, "Student not found")] }) := by
  unfold processStudent
  rw [hfs]

theorem processStudent_proj_U (ctx : BatchCtx) (db : DB) (acc : Accum)
    (sid₀ : Nat) (s : StudentRec) (hfs : findStudent db sid₀ ctx.siteId = some s) :
    processStudent ctx db acc sid₀ Status.U =
      (updateStudent db sid₀ (markUnenrolled ctx.entryDate),
       { acc with unenrolled := acc.unenrolled + 1 }) := by
  unfold processStudent
  rw [hfs]
  simp

theorem processStudent_proj_nonU (ctx : BatchCtx) (db : DB) (acc : Accum)
    (sid₀ : Nat) (st₀ : Status) (s : StudentRec)
    (hfs : findStudent db sid₀ ctx.siteId = some s) (hu : st₀ ≠ Status.U) :
    (processStudent ctx db acc sid₀ st₀).1.ledger = (upsertLedger db.ledger ctx sid₀ st₀).1 ∧
    (processStudent ctx db acc sid₀ st₀).1.entries = db.entries ++
      [{ siteId := ctx.siteId, studentId := sid₀, groupId := ctx.groupId,
         teacherId := ctx.teacherId, lessonId := ctx.lessonId,
         entryDate := ctx.entryDate, status := st₀, entryType := ctx.entryType }] ∧
    (processStudent ctx db acc sid₀ st₀).2.errors = acc.errors ∧
    (processStudent ctx db acc sid₀ st₀).2.recalc = acc.recalc ++ [sid₀] ∧
    (processStudent ctx db acc sid₀ st₀).1.students =
      updateFirst (fun x => x.studentId == sid₀)
        (fun x =>
          let s1 := { x with lastActivityDate := some ctx.entryDate }
          if st₀ = Status.Y then advanceCurrentLesson ctx.lessonNumber s1 else s1)
        db.students := by
  unfold processStudent
  rw [hfs]
  simp only [if_neg hu]
  by_cases hb : (upsertLedger db.ledger ctx sid₀ st₀).2
  · simp only [if_pos hb]
    refine ⟨?_, ?_, ?_, ?_, ?_⟩ <;> trivial
  · simp only [if_neg hb]
    refine ⟨?_, ?_, ?_, ?_, ?_⟩ <;> trivial

/-! ## Monotone facts along the loop -/

theorem upsertLedger_any_mono (L : List LedgerRec) (ctx : BatchCtx)
    (sid₀ : Nat) (st₀ : Status) (a b : Nat)
    (h : L.any (ledgerKeyMatch a b) = true) :
    (upsertLedger L ctx sid₀ st₀).1.any (ledgerKeyMatch a b) = true := by
  unfold upsertLedger
  split
  · dsimp only
    have hf : ∀ x : LedgerRec,
        ledgerKeyMatch a b (ledgerOverwrite ctx st₀ x) = ledgerKeyMatch a b x :=
      fun x => rfl
    exact (any_updateFirst _ _ _ L hf).trans h
  · dsimp only
    rw [List.any_append, h, Bool.true_or]

theorem upsertLedger_any_self (L : List LedgerRec) (ctx : BatchCtx)
    (sid₀ : Nat) (st₀ : Status) :
    (upsertLedger L ctx sid₀ st₀).1.any (ledgerKeyMatch sid₀ ctx.lessonId) = true := by
  unfold upsertLedger
  split
  · dsimp only
    rename_i hany
    have hf : ∀ x : LedgerRec,
        ledgerKeyMatch sid₀ ctx.lessonId (ledgerOverwrite ctx st₀ x) =
          ledgerKeyMatch sid₀ ctx.lessonId x :=
      fun x => rfl
    exact (any_updateFirst _ _ _ L hf).trans hany
  · dsimp only
    rw [List.any_append]
    have hk : ledgerKeyMatch sid₀ ctx.lessonId
        { studentId := sid₀, lessonId := ctx.lessonId,
          groupId := some ctx.groupId, teacherId := some ctx.teacherId,
          status := st₀, completedDate := some ctx.entryDate,
          isInitial := false } = true := by
      simp [ledgerKeyMatch]
    simp [hk]

theorem processStudent_mono (ctx : BatchCtx) (db : DB) (acc : Accum)
    (sid₀ : Nat) (st₀ : Status) :
    (∀ e ∈ acc.errors, e ∈ (processStudent ctx db acc sid₀ st₀).2.errors) ∧
    (∀ x ∈ acc.recalc, x ∈ (processStudent ctx db acc sid₀ st₀).2.recalc) ∧
    (∀ a b, db.ledger.any (ledgerKeyMatch a b) = true →
      (processStudent ctx db acc sid₀ st₀).1.ledger.any (ledgerKeyMatch a b) = true) := by
  cases hfs : findStudent db sid₀ ctx.siteId with
  | none =>
    rw [processStudent_proj_none ctx db acc sid₀ st₀ hfs]
    exact ⟨fun e he => List.mem_append_left _ he, fun x hx => hx, fun a b h => h⟩
  | some s =>
    by_cases hu : st₀ = Status.U
    · subst hu
      rw [processStudent_proj_U ctx db acc sid₀ s hfs]
      exact ⟨fun e he => he, fun x hx => hx, fun a b h => h⟩
    · obtain ⟨hl, he, herr, hrec, _⟩ := processStudent_proj_nonU ctx db acc sid₀ st₀ s hfs hu
      refine ⟨?_, ?_, ?_⟩
      · intro e hee; rw [herr]; exact hee
      · intro x hx; rw [hrec]; exact List.mem_append_left _ hx
      · intro a b h
        rw [hl]
        exact upsertLedger_any_mono db.ledger ctx sid₀ st₀ a b h

theorem processStudents_mono (ctx : BatchCtx) (students : List (Nat × Status)) :
    ∀ (db : DB) (acc : Accum),
    (∀ e ∈ acc.errors, e ∈ (processStudents ctx db acc students).2.errors) ∧
    (∀ x ∈ acc.recalc, x ∈ (processStudents ctx db acc students).2.recalc) ∧
    (∀ a b, db.ledger.any (ledgerKeyMatch a b) = true →
      (processStudents ctx db acc students).1.ledger.any (ledgerKeyMatch a b) = true) := by
  induction students with
  | nil => intro db acc; exact ⟨fun e he => he, fun x hx => hx, fun a b h => h⟩
  | cons hd tl ih =>
    intro db acc
    obtain ⟨sid₀, st₀⟩ := hd
    rw [processStudents_cons]
    obtain ⟨s1, s2, s3⟩ := processStudent_mono ctx db acc sid₀ st₀
    obtain ⟨i1, i2, i3⟩ :=
      ih (processStudent ctx db acc sid₀ st₀).1 (processStudent ctx db acc sid₀ st₀).2
    exact ⟨fun e he => i1 e (s1 e he), fun x hx => i2 x (s2 x hx),
      fun a b h => i3 a b (s3 a b h)⟩

/-- An unresolvable pair leaves its per-student error in the final error
list, and the loop goes on. -/
theorem processStudents_error_of_unresolved (ctx : BatchCtx)
    (students : List (Nat × Status)) :
    ∀ (db : DB) (acc : Accum) (sid : Nat) (st : Status),
      (sid, st) ∈ students → (findStudent db sid ctx.siteId).isSome = false →
      (sid, "Student not found") ∈ (processStudents ctx db acc students).2.errors := by
  induction students with
  | nil => intro db acc sid st hmem; exact absurd hmem (by simp)
  | cons hd tl ih =>
    intro db acc sid st hmem hres
    obtain ⟨sid₀, st₀⟩ := hd
    rw [processStudents_cons]
    rcases List.mem_cons.mp hmem with hhd | htl
    · obtain ⟨h1, h2⟩ := Prod.mk.injEq _ _ _ _ ▸ hhd
      subst h1
      have hfs : findStudent db sid ctx.siteId = none := by
        cases hq : findStudent db sid ctx.siteId with
        | none => rfl
        | some s => rw [hq] at hres; cases hres
      rw [processStudent_proj_none ctx db acc sid st₀ hfs]
      exact (processStudents_mono ctx tl db _).1 _
        (List.mem_append_right _ (List.mem_singleton.mpr rfl))
    · have hkeys := processStudent_studentKeys ctx db acc sid₀ st₀
      have hres' : (findStudent (processStudent ctx db acc sid₀ st₀).1 sid ctx.siteId).isSome = false := by
        rw [findStudent_isSome_congr sid ctx.siteId hkeys]
        exact hres
      exact ih _ _ sid st htl hres'

/-- A resolvable non-U pair leaves its Ledger row present and its student
queued after the loop. -/
theorem processStudents_upsert_of_resolved (ctx : BatchCtx)
    (students : List (Nat × Status)) :
    ∀ (db : DB) (acc : Accum) (sid : Nat) (st : Status),
      (sid, st) ∈ students → st ≠ Status.U →
      (findStudent db sid ctx.siteId).isSome = true →
      (processStudents ctx db acc students).1.ledger.any (ledgerKeyMatch sid ctx.lessonId) = true ∧
      sid ∈ (processStudents ctx db acc students).2.recalc := by
  induction students with
  | nil => intro db acc sid st hmem; exact absurd hmem (by simp)
  | cons hd tl ih =>
    intro db acc sid st hmem hu hres
    obtain ⟨sid₀, st₀⟩ := hd
    rw [processStudents_cons]
    rcases List.mem_cons.mp hmem with hhd | htl
    · obtain ⟨h1, h2⟩ := Prod.mk.injEq _ _ _ _ ▸ hhd
      subst h1
      subst h2
      obtain ⟨s, hfs⟩ := Option.isSome_iff_exists.mp hres
      obtain ⟨hl, _, _, hrec, _⟩ := processStudent_proj_nonU ctx db acc sid st s hfs hu
      obtain ⟨_, m2, m3⟩ := processStudents_mono ctx tl
        (processStudent ctx db acc sid st).1 (processStudent ctx db acc sid st).2
      constructor
      · apply m3
        rw [hl]
        exact upsertLedger_any_self db.ledger ctx sid st
      · apply m2
        rw [hrec]
        exact List.mem_append_right _ (List.mem_singleton.mpr rfl)
    · have hkeys := processStudent_studentKeys ctx db acc sid₀ st₀
      have hres' : (findStudent (processStudent ctx db acc sid₀ st₀).1 sid ctx.siteId).isSome = true := by
        rw [findStudent_isSome_congr sid ctx.siteId hkeys]
        exact hres
      exact ih _ _ sid st htl hu hres'

/-! ## Progress-record presence through the recalculation pass -/

theorem findStudentById_isSome_congr {dbA dbB : DB} (sid : Nat)
    (h : dbA.students.map (fun s => (s.studentId, s.siteId)) =
      dbB.students.map (fun s => (s.studentId, s.siteId))) :
    (findStudentById dbA sid).isSome = (findStudentById dbB sid).isSome := by
  have key : ∀ L : List StudentRec,
      (L.find? (fun s => s.studentId == sid)).isSome =
        ((L.map (fun s => (s.studentId, s.siteId))).find? (fun k => k.1 == sid)).isSome := by
    intro L
    rw [List.find?_map]
    have hp : ((fun k : Nat × Nat => k.1 == sid) ∘
        fun s : StudentRec => (s.studentId, s.siteId)) =
        (fun s : StudentRec => s.studentId == sid) := rfl
    rw [hp]
    simp
  unfold findStudentById
  rw [key, key, h]

theorem upsertProgress_students (db : DB) (sid : Nat) (d : ProgressData) :
    (upsertProgressRecord db sid d).students = db.students := by
  unfold upsertProgressRecord
  split <;> rfl

theorem calculateStudentProgress_studentKeys (db : DB) (sid : Nat) :
    (calculateStudentProgress db sid).students.map (fun s => (s.studentId, s.siteId)) =
      db.students.map (fun s => (s.studentId, s.siteId)) := by
  unfold calculateStudentProgress
  cases db.students.find? (fun s => s.studentId == sid) with
  | none => rfl
  | some stu =>
    rw [upsertProgress_students]
    exact updateStudent_studentKeys _ _ _ (fun x => ⟨rfl, rfl⟩)

theorem upsertProgress_any_mono (db : DB) (sid₂ : Nat) (d : ProgressData) (a : Nat)
    (h : db.progressRecords.any (progressKeyMatch a) = true) :
    (upsertProgressRecord db sid₂ d).progressRecords.any (progressKeyMatch a) = true := by
  unfold upsertProgressRecord
  split
  · have hf : ∀ x : ProgressRec,
        progressKeyMatch a (applyProgressData d x) = progressKeyMatch a x :=
      fun x => rfl
    exact (any_updateFirst _ _ _ _ hf).trans h
  · rw [List.any_append, h, Bool.true_or]

theorem upsertProgress_any_self (db : DB) (sid : Nat) (d : ProgressData) :
    (upsertProgressRecord db sid d).progressRecords.any (progressKeyMatch sid) = true := by
  unfold upsertProgressRecord
  split
  · rename_i hany
    have hf : ∀ x : ProgressRec,
        progressKeyMatch sid (applyProgressData d x) = progressKeyMatch sid x :=
      fun x => rfl
    exact (any_updateFirst _ _ _ _ hf).trans hany
  · rw [List.any_append]
    have hk : progressKeyMatch sid (applyProgressData d (blankProgressRec sid)) = true := by
      simp [progressKeyMatch, applyProgressData, blankProgressRec]
    simp [hk]

theorem calculateStudentProgress_pr_mono (db : DB) (sid₂ a : Nat)
    (h : db.progressRecords.any (progressKeyMatch a) = true) :
    (calculateStudentProgress db sid₂).progressRecords.any (progressKeyMatch a) = true := by
  unfold calculateStudentProgress
  cases db.students.find? (fun s => s.studentId == sid₂) with
  | none => exact h
  | some stu => exact upsertProgress_any_mono _ _ _ _ h

theorem calculateStudentProgress_pr_self (db : DB) (sid : Nat)
    (hfind : (findStudentById db sid).isSome = true) :
    (calculateStudentProgress db sid).progressRecords.any (progressKeyMatch sid) = true := by
  obtain ⟨stu, hstu⟩ := Option.isSome_iff_exists.mp hfind
  unfold findStudentById at hstu
  unfold calculateStudentProgress
  rw [hstu]
  exact upsertProgress_any_self _ _ _

theorem recalcAll_pr (sids : List Nat) :
    ∀ (db : DB) (a : Nat),
      (db.progressRecords.any (progressKeyMatch a) = true →
        (recalcAll db sids).progressRecords.any (progressKeyMatch a) = true) ∧
      (a ∈ sids → (findStudentById db a).isSome = true →
        (recalcAll db sids).progressRecords.any (progressKeyMatch a) = true) := by
  induction sids with
  | nil =>
    intro db a
    exact ⟨fun h => h, fun hmem => absurd hmem (by simp)⟩
  | cons s rest ih =>
    intro db a
    rw [recalcAll_cons]
    obtain ⟨i1, i2⟩ := ih (calculateStudentProgress db s) a
    constructor
    · intro h
      exact i1 (calculateStudentProgress_pr_mono db s a h)
    · intro hmem hsome
      rcases List.mem_cons.mp hmem with rfl | hrest
      · exact i1 (calculateStudentProgress_pr_self db a hsome)
      · have hsome' : (findStudentById (calculateStudentProgress db s) a).isSome = true := by
          rw [findStudentById_isSome_congr a (calculateStudentProgress_studentKeys db s)]
          exact hsome
        exact i2 hrest hsome'

/-! ## C6 -/

/-- C6: an invalid group, teacher, or lesson reference rejects the whole
submission — `processBatch` returns an error and hands back no state, so
nothing is written — whereas an unknown (or cross-site) student only adds
a per-student error to the response, and every other resolvable non-U
student of the batch is still processed: their Ledger row for the
submitted lesson exists afterwards and a cached progress record for them
exists afterwards. -/
theorem C6_two_tier_failures (db : DB) (inp : BatchInput) :
    (findGroup db inp.groupId inp.siteId = none →
      processBatch db inp = Except.error "Invalid group_id") ∧
    (findGroup db inp.groupId inp.siteId ≠ none →
      findTeacher db inp.teacherId inp.siteId = none →
      processBatch db inp = Except.error "Invalid teacher_id") ∧
    (findGroup db inp.groupId inp.siteId ≠ none →
      findTeacher db inp.teacherId inp.siteId ≠ none →
      findLesson db inp.lessonId = none →
      processBatch db inp = Except.error "Invalid lesson_id") ∧
    (∀ out, processBatch db inp = Except.ok out →
      ∀ sid st, (sid, st) ∈ inp.students →
        ((findStudent db sid inp.siteId).isSome = false →
          (sid, "Student not found") ∈ out.2.errors) ∧
        ((findStudent db sid inp.siteId).isSome = true → st ≠ Status.U →
          out.1.ledger.any (ledgerKeyMatch sid inp.lessonId) = true ∧
          out.1.progressRecords.any (progressKeyMatch sid) = true)) := by
  refine ⟨?_, ?_, ?_, ?_⟩
  · intro hg
    unfold processBatch
    rw [hg]
  · intro hg ht
    obtain ⟨g, hg⟩ := Option.ne_none_iff_exists'.mp hg
    unfold processBatch
    rw [hg, ht]
  · intro hg ht hl
    obtain ⟨g, hg⟩ := Option.ne_none_iff_exists'.mp hg
    obtain ⟨t, ht⟩ := Option.ne_none_iff_exists'.mp ht
    unfold processBatch
    rw [hg, ht, hl]
  · intro out hok sid st hmem
    obtain ⟨group, teacher, lesson, _, _, _, hid, hout, hres⟩ := processBatch_ok_elim hok
    constructor
    · intro hnone
      rw [hres]
      exact processStudents_error_of_unresolved (batchCtx inp group teacher lesson)
        inp.students db {} sid st hmem hnone
    · intro hsome hu
      have hup := processStudents_upsert_of_resolved (batchCtx inp group teacher lesson)
        inp.students db {} sid st hmem hu hsome
      have hctxl : (batchCtx inp group teacher lesson).lessonId = inp.lessonId := hid
      constructor
      · rw [hout]
        have hfr := (recalcAll_frame
          (processStudents (batchCtx inp group teacher lesson) db {} inp.students).2.recalc
          (processStudents (batchCtx inp group teacher lesson) db {} inp.students).1).2.2.2.2.2.2
        rw [hfr, ← hctxl]
        exact hup.1
      · rw [hout]
        have hsome2 : (findStudentById
            (processStudents (batchCtx inp group teacher lesson) db {} inp.students).1 sid).isSome = true := by
          rw [findStudentById_isSome_congr sid
            (processStudents_studentKeys (batchCtx inp group teacher lesson) inp.students db {})]
          exact findStudentById_isSome_of_findStudent hsome
        exact (recalcAll_pr _ _ _).2 hup.2 hsome2

/-- Witness for C6: a bad group id rejects the whole batch; in the mixed
batch, unknown student 2 is reported while student 1's N outcome is still
recorded and recalculated. -/
theorem C6_two_tier_failures_witness :
    processBatch exampleDB { exampleMixedBatch with groupId := 999 } =
      Except.error "Invalid group_id" ∧
    (2, "Student not found") ∈ (okOr (processBatch exampleDB exampleMixedBatch)).2.errors ∧
    (okOr (processBatch exampleDB exampleMixedBatch)).1.ledger.any
      (ledgerKeyMatch 1 105) = true ∧
    (okOr (processBatch exampleDB exampleMixedBatch)).1.progressRecords.any
      (progressKeyMatch 1) = true := by
  have hok : processBatch exampleDB exampleMixedBatch =
      Except.ok (okOr (processBatch exampleDB exampleMixedBatch)) := by rfl
  have h4 := (C6_two_tier_failures exampleDB exampleMixedBatch).2.2.2 _ hok
  refine ⟨?_, ?_, ?_, ?_⟩
  · exact (C6_two_tier_failures exampleDB { exampleMixedBatch with groupId := 999 }).1 (by rfl)
  · exact (h4 2 Status.Y (by decide)).1 (by rfl)
  · exact ((h4 1 Status.N (by decide)).2 (by rfl) (by decide)).1
  · exact ((h4 1 Status.N (by decide)).2 (by rfl) (by decide)).2

/-! ## Characterization of the status map as a last-write dict -/

theorem smGet_smInsert (m : StatusMap) (k : Nat) (v : Status) (n : Nat) :
    smGet (smInsert m k v) n = if k = n then some v else smGet m n := by
  unfold smInsert
  split
  · rename_i hany
    by_cases hkn : k = n
    · subst hkn
      have hsome : (m.find? (fun p => p.1 == k)).isSome := by
        rw [List.find?_isSome]
        obtain ⟨p, hp, hpk⟩ := List.any_eq_true.mp hany
        exact ⟨p, hp, hpk⟩
      obtain ⟨x, hx⟩ := Option.isSome_iff_exists.mp hsome
      unfold smGet
      rw [find?_updateFirst_self (fun p : Nat × Status => p.1 == k)
        (fun p => (p.1, v)) m x (fun y => rfl) hx]
      simp
    · unfold smGet
      rw [find?_updateFirst_other]
      · rw [if_neg hkn]
      · intro y hy
        simp only [beq_iff_eq] at hy
        simp [hy, beq_eq_false_iff_ne, hkn]
      · intro y
        rfl
  · rename_i hany
    have hnone : m.find? (fun p => p.1 == k) = none := by
      rw [List.find?_eq_none]
      intro p hp
      intro hc
      exact hany (List.any_eq_true.mpr ⟨p, hp, hc⟩)
    by_cases hkn : k = n
    · subst hkn
      unfold smGet
      rw [List.find?_append, hnone]
      simp
    · unfold smGet
      rw [List.find?_append]
      have h1 : List.find? (fun p => p.1 == n) [(k, v)] = none := by
        simp [beq_eq_false_iff_ne, hkn]
      rw [h1, if_neg hkn]
      cases m.find? (fun p => p.1 == n) <;> rfl

theorem foldl_match_filterMap (lessons : List LessonRec) (rows : List LedgerRec) :
    ∀ acc : StatusMap,
      rows.foldl (fun acc r =>
        match lessons.find? (fun l => l.lessonId == r.lessonId) with
        | some l => smInsert acc l.number r.status
        | none => acc) acc =
      (rows.filterMap (fun r => (lessons.find? (fun l => l.lessonId == r.lessonId)).map
        (fun l => (l.number, r.status)))).foldl (fun a p => smInsert a p.1 p.2) acc := by
  induction rows with
  | nil => intro acc; rfl
  | cons r rs ih =>
    intro acc
    rw [List.filterMap_cons]
    cases hf : lessons.find? (fun l => l.lessonId == r.lessonId) with
    | none =>
      simp only [List.foldl_cons, hf, Option.map_none']
      exact ih acc
    | some l =>
      simp only [List.foldl_cons, hf, Option.map_some']
      exact ih _

theorem statusMapOf_eq (db : DB) (sid : Nat) :
    statusMapOf db sid = buildDict (pairsOf db.lessons db.ledger sid) := by
  unfold statusMapOf buildDict pairsOf findLesson
  exact foldl_match_filterMap db.lessons _ []

theorem smGet_foldl_insert (ps : List (Nat × Status)) (n : Nat) :
    ∀ (acc : StatusMap),
      smGet (ps.foldl (fun a p => smInsert a p.1 p.2) acc) n =
        ps.foldl (fun a p => if p.1 = n then some p.2 else a) (smGet acc n) := by
  induction ps with
  | nil => intro acc; rfl
  | cons p ps ih =>
    intro acc
    rw [List.foldl_cons, List.foldl_cons, ih, smGet_smInsert]

theorem smGet_buildDict (ps : List (Nat × Status)) (n : Nat) :
    smGet (buildDict ps) n = lastVal ps n :=
  smGet_foldl_insert ps n []

/-- The keys of a built dict are distinct. -/
theorem buildDict_keys_nodup (ps : List (Nat × Status)) :
    ∀ acc : StatusMap, (acc.map Prod.fst).Nodup →
      ((ps.foldl (fun a p => smInsert a p.1 p.2) acc).map Prod.fst).Nodup := by
  induction ps with
  | nil => intro acc h; exact h
  | cons p ps ih =>
    intro acc h
    rw [List.foldl_cons]
    apply ih
    unfold smInsert
    split
    · rw [map_updateFirst (fun q : Nat × Status => q.1 == p.1) (fun q => (q.1, p.2))
        Prod.fst acc (fun y => rfl)]
      exact h
    · rename_i hany
      rw [List.map_append]
      rw [List.nodup_append]
      refine ⟨h, List.nodup_singleton _, ?_⟩
      intro a ha hb
      rw [List.mem_map] at ha
      obtain ⟨q, hq, rfl⟩ := ha
      rw [List.map_cons, List.map_nil, List.mem_singleton] at hb
      exact hany (List.any_eq_true.mpr ⟨q, hq, by simp [hb]⟩)

theorem statusMap_keys_nodup (db : DB) (sid : Nat) :
    ((statusMapOf db sid).map Prod.fst).Nodup := by
  rw [statusMapOf_eq]
  exact buildDict_keys_nodup _ [] List.nodup_nil

/-- Under distinct keys, membership determines lookup. -/
theorem smGet_of_mem_nodup (m : StatusMap) (k : Nat) (v : Status)
    (hmem : (k, v) ∈ m) (hnd : (m.map Prod.fst).Nodup) : smGet m k = some v := by
  induction m with
  | nil => cases hmem
  | cons p ps ih =>
    rw [List.map_cons, List.nodup_cons] at hnd
    rcases List.mem_cons.mp hmem with rfl | hmem'
    · unfold smGet
      rw [List.find?_cons_of_pos _ (by simp)]
      rfl
    · have hne : p.1 ≠ k := by
        intro h
        exact hnd.1 (h ▸ List.mem_map.mpr ⟨(k, v), hmem', rfl⟩)
      unfold smGet
      rw [List.find?_cons_of_neg _ (by simp [hne])]
      exact ih hmem' hnd.2

theorem mem_of_smGet (m : StatusMap) (k : Nat) (v : Status)
    (h : smGet m k = some v) : (k, v) ∈ m := by
  unfold smGet at h
  obtain ⟨p, hp, hpv⟩ := Option.map_eq_some'.mp h
  have hmem := List.mem_of_find?_eq_some hp
  have hk := List.find?_some hp
  simp only [beq_iff_eq] at hk
  have : p = (k, v) := by
    cases p
    simp only at hpv hk
    rw [hk, hpv]
  rw [← this]
  exact hmem

/-! ## Maximum lemmas for the current-lesson recomputation -/

theorem listMax?_mem (l : List Nat) (y : Nat) (h : listMax? l = some y) : y ∈ l := by
  induction l generalizing y with
  | nil => cases h
  | cons x xs ih =>
    unfold listMax? at h
    cases hm : listMax? xs with
    | none =>
      rw [hm] at h
      cases h
      exact List.mem_cons_self _ _
    | some z =>
      rw [hm] at h
      cases h
      rcases max_choice x z with h | h
      · rw [h]; exact List.mem_cons_self _ _
      · rw [h]; exact List.mem_cons_of_mem _ (ih z hm)

theorem listMax?_ge_of_mem (l : List Nat) (a : Nat) (ha : a ∈ l) :
    ∃ y, listMax? l = some y ∧ a ≤ y := by
  induction l with
  | nil => cases ha
  | cons x xs ih =>
    unfold listMax?
    cases hm : listMax? xs with
    | none =>
      rcases List.mem_cons.mp ha with rfl | hmem
      · exact ⟨a, rfl, le_refl a⟩
      · obtain ⟨y, hy, _⟩ := ih hmem
        rw [hy] at hm
        cases hm
    | some z =>
      rcases List.mem_cons.mp ha with rfl | hmem
      · exact ⟨max a z, rfl, le_max_left a z⟩
      · obtain ⟨y, hy, hay⟩ := ih hmem
        rw [hm] at hy
        injection hy with hzy
        subst hzy
        exact ⟨max x z, rfl, le_trans hay (le_max_right x z)⟩

theorem currentLessonLE_refl (x : Option Nat) : currentLessonLE x x := by
  cases x with
  | none => trivial
  | some a => exact ⟨a, rfl, le_refl a⟩

/-- A recomputed current lesson dominates any Y-recorded lesson. -/
theorem calculateCurrentLesson_ge (m : StatusMap) (x : Nat)
    (h : smGet m x = some Status.Y) :
    ∃ y, calculateCurrentLesson m = some y ∧ x ≤ y := by
  have hmem : (x, Status.Y) ∈ m := mem_of_smGet m x Status.Y h
  have hx : x ∈ (m.filter (fun p => decide (p.2 = Status.Y))).map Prod.fst := by
    rw [List.mem_map]
    exact ⟨(x, Status.Y), List.mem_filter.mpr ⟨hmem, by simp⟩, rfl⟩
  obtain ⟨y, hy, hxy⟩ := listMax?_ge_of_mem _ x hx
  exact ⟨y, hy, hxy⟩

/-- Conversely, a recomputed current lesson is itself a Y-recorded lesson. -/
theorem calculateCurrentLesson_isY (m : StatusMap) (y : Nat)
    (hnd : (m.map Prod.fst).Nodup)
    (h : calculateCurrentLesson m = some y) : smGet m y = some Status.Y := by
  have hy := listMax?_mem _ y h
  rw [List.mem_map] at hy
  obtain ⟨p, hp, rfl⟩ := hy
  rw [List.mem_filter] at hp
  have hpy : p.2 = Status.Y := by simpa using hp.2
  have : (p.1, Status.Y) ∈ m := by
    rw [← hpy]
    exact hp.1
  exact smGet_of_mem_nodup m p.1 Status.Y this hnd

/-! ## Y-set growth under Y/U-only batches -/

theorem forall₂_refl_of {α : Type} (R : α → α → Prop) (hrefl : ∀ x, R x x) :
    ∀ L : List α, List.Forall₂ R L L := by
  intro L
  induction L with
  | nil => exact List.Forall₂.nil
  | cons x xs ih => exact List.Forall₂.cons (hrefl x) ih

theorem forall₂_updateFirst {α : Type} (R : α → α → Prop) (p : α → Bool) (f : α → α)
    (L : List α) (hrefl : ∀ x, R x x) (hf : ∀ x, R x (f x)) :
    List.Forall₂ R L (updateFirst p f L) := by
  induction L with
  | nil => exact List.Forall₂.nil
  | cons x xs ih =>
    unfold updateFirst
    by_cases hp : p x
    · rw [if_pos hp]
      exact List.Forall₂.cons (hf x) (forall₂_refl_of R hrefl xs)
    · rw [if_neg hp]
      exact List.Forall₂.cons (hrefl x) ih

/-- Pairwise Ledger-row changes that keep the key fields and only turn
statuses into Y induce the corresponding relation on the extracted
(number, status) pairs. -/
theorem pairsOf_forall₂ (lessons : List LessonRec) {L L' : List LedgerRec} (A : Nat)
    (h : List.Forall₂ (fun r r' => r'.studentId = r.studentId ∧
      r'.isInitial = r.isInitial ∧ r'.lessonId = r.lessonId ∧
      (r'.status = r.status ∨ r'.status = Status.Y)) L L') :
    List.Forall₂ (fun p q => p.1 = q.1 ∧ (q.2 = p.2 ∨ q.2 = Status.Y))
      (pairsOf lessons L A) (pairsOf lessons L' A) := by
  induction h with
  | nil => exact List.Forall₂.nil
  | @cons r r' L₁ L₂ hrr htail ih =>
    obtain ⟨h1, h2, h3, h4⟩ := hrr
    unfold pairsOf
    rw [List.filter_cons, List.filter_cons]
    have hq : (r'.studentId == A && !r'.isInitial) = (r.studentId == A && !r.isInitial) := by
      rw [h1, h2]
    rw [hq]
    by_cases hqr : (r.studentId == A && !r.isInitial) = true
    · rw [if_pos hqr]
      rw [if_pos hqr]
      rw [List.filterMap_cons, List.filterMap_cons, h3]
      cases hf : lessons.find? (fun l => l.lessonId == r.lessonId) with
      | none =>
        simp only [hf, Option.map_none']
        exact ih
      | some l =>
        simp only [hf, Option.map_some']
        refine List.Forall₂.cons ⟨rfl, ?_⟩ ih
        rcases h4 with h4 | h4
        · exact Or.inl h4
        · exact Or.inr h4
    · rw [if_neg hqr]
      rw [if_neg hqr]
      exact ih

theorem lastVal_fold_mono {ps qs : List (Nat × Status)}
    (h : List.Forall₂ (fun p q => p.1 = q.1 ∧ (q.2 = p.2 ∨ q.2 = Status.Y)) ps qs)
    (n : Nat) :
    ∀ acc₁ acc₂ : Option Status,
      (acc₁ = some Status.Y → acc₂ = some Status.Y) →
      ps.foldl (fun a p => if p.1 = n then some p.2 else a) acc₁ = some Status.Y →
      qs.foldl (fun a p => if p.1 = n then some p.2 else a) acc₂ = some Status.Y := by
  induction h with
  | nil => intro acc₁ acc₂ hacc hy; exact hacc hy
  | @cons p q ps' qs' hpq htail ih =>
    intro acc₁ acc₂ hacc
    rw [List.foldl_cons, List.foldl_cons]
    apply ih
    obtain ⟨h1, h2⟩ := hpq
    by_cases hn : p.1 = n
    · rw [if_pos hn, if_pos (h1 ▸ hn)]
      intro hy
      injection hy with hy2
      rcases h2 with h2 | h2
      · rw [h2, hy2]
      · rw [h2]
    · rw [if_neg hn, if_neg (h1 ▸ hn)]
      exact hacc

theorem lastVal_mono {ps qs : List (Nat × Status)}
    (h : List.Forall₂ (fun p q => p.1 = q.1 ∧ (q.2 = p.2 ∨ q.2 = Status.Y)) ps qs)
    (n : Nat) (hy : lastVal ps n = some Status.Y) : lastVal qs n = some Status.Y :=
  lastVal_fold_mono h n none none (fun hc => hc) hy

theorem pairsOf_append (lessons : List LessonRec) (L M : List LedgerRec) (A : Nat) :
    pairsOf lessons (L ++ M) A = pairsOf lessons L A ++ pairsOf lessons M A := by
  unfold pairsOf
  rw [List.filter_append, List.filterMap_append]

theorem lastVal_fold_allY (qs : List (Nat × Status)) (n : Nat) :
    ∀ acc : Option Status, (∀ p ∈ qs, p.2 = Status.Y) → acc = some Status.Y →
      qs.foldl (fun a p => if p.1 = n then some p.2 else a) acc = some Status.Y := by
  induction qs with
  | nil => intro acc _ h; exact h
  | cons q qs' ih =>
    intro acc hq h
    rw [List.foldl_cons]
    apply ih _ (fun p hp => hq p (List.mem_cons_of_mem _ hp))
    by_cases hn : q.1 = n
    · rw [if_pos hn, hq q (List.mem_cons_self _ _)]
    · rw [if_neg hn]
      exact h

theorem lastVal_append_allY (ps qs : List (Nat × Status)) (n : Nat)
    (hq : ∀ p ∈ qs, p.2 = Status.Y) (h : lastVal ps n = some Status.Y) :
    lastVal (ps ++ qs) n = some Status.Y := by
  unfold lastVal at *
  rw [List.foldl_append]
  exact lastVal_fold_allY qs n _ hq h

theorem statusMapOf_congr (db1 db2 : DB) (sid : Nat)
    (hl : db1.ledger = db2.ledger) (hle : db1.lessons = db2.lessons) :
    statusMapOf db1 sid = statusMapOf db2 sid := by
  unfold statusMapOf findLesson
  rw [hl, hle]

/-- A Y-upsert can only keep or add Y verdicts in the extracted pairs. -/
theorem pairsOf_upsertLedger_Y (lessons : List LessonRec) (L : List LedgerRec)
    (ctx : BatchCtx) (sid₀ A n : Nat)
    (hY : lastVal (pairsOf lessons L A) n = some Status.Y) :
    lastVal (pairsOf lessons (upsertLedger L ctx sid₀ Status.Y).1 A) n = some Status.Y := by
  unfold upsertLedger
  split
  · dsimp only
    refine lastVal_mono (pairsOf_forall₂ lessons A
      (forall₂_updateFirst _ (ledgerKeyMatch sid₀ ctx.lessonId)
        (ledgerOverwrite ctx Status.Y)
        L (fun x => ⟨rfl, rfl, rfl, Or.inl rfl⟩)
        (fun x => ⟨rfl, rfl, rfl, Or.inr rfl⟩))) n hY
  · dsimp only
    rw [pairsOf_append]
    refine lastVal_append_allY _ _ _ ?_ hY
    intro p hp
    unfold pairsOf at hp
    rcases List.mem_filterMap.mp hp with ⟨r, hr, hg⟩
    have hrmem := (List.mem_filter.mp hr).1
    rw [List.mem_singleton] at hrmem
    subst hrmem
    obtain ⟨l, _, hpl⟩ := Option.map_eq_some'.mp hg
    rw [← hpl]

/-- One Y- or U-step never destroys a Y verdict in any student's status
map. -/
theorem processStudent_YIn (ctx : BatchCtx) (db : DB) (acc : Accum)
    (sid₀ : Nat) (st₀ : Status) (A n : Nat)
    (hst : st₀ = Status.Y ∨ st₀ = Status.U)
    (h : smGet (statusMapOf db A) n = some Status.Y) :
    smGet (statusMapOf (processStudent ctx db acc sid₀ st₀).1 A) n = some Status.Y := by
  cases hfs : findStudent db sid₀ ctx.siteId with
  | none =>
    rw [processStudent_proj_none ctx db acc sid₀ st₀ hfs]
    exact h
  | some s =>
    rcases hst with rfl | rfl
    · obtain ⟨hl, _, _, _, _⟩ :=
        processStudent_proj_nonU ctx db acc sid₀ Status.Y s hfs (by simp)
      have hles : (processStudent ctx db acc sid₀ Status.Y).1.lessons = db.lessons :=
        (processStudent_frame ctx db acc sid₀ Status.Y).2.2.1
      rw [statusMapOf_eq, smGet_buildDict] at h ⊢
      rw [hl, hles]
      exact pairsOf_upsertLedger_Y db.lessons db.ledger ctx sid₀ A n h
    · rw [processStudent_proj_U ctx db acc sid₀ s hfs]
      rw [statusMapOf_congr (updateStudent db sid₀ (markUnenrolled ctx.entryDate)) db A rfl rfl]
      exact h

theorem processStudents_YIn (ctx : BatchCtx) (S : List (Nat × Status)) :
    ∀ (db : DB) (acc : Accum) (A n : Nat),
      (∀ p ∈ S, p.2 = Status.Y ∨ p.2 = Status.U) →
      smGet (statusMapOf db A) n = some Status.Y →
      smGet (statusMapOf (processStudents ctx db acc S).1 A) n = some Status.Y := by
  induction S with
  | nil => intro db acc A n _ h; exact h
  | cons hd tl ih =>
    intro db acc A n hYU h
    obtain ⟨sid₀, st₀⟩ := hd
    rw [processStudents_cons]
    refine ih _ _ A n (fun p hp => hYU p (List.mem_cons_of_mem _ hp)) ?_
    exact processStudent_YIn ctx db acc sid₀ st₀ A n
      (hYU (sid₀, st₀) (List.mem_cons_self _ _)) h

/-! ## Current-lesson bookkeeping through loop and recalculation -/

theorem studentCurrentLesson_updateStudent (db : DB) (sid₀ : Nat)
    (f : StudentRec → StudentRec) (A : Nat)
    (hfid : ∀ x, (f x).studentId = x.studentId)
    (hfc : ∀ x, (f x).currentLesson = x.currentLesson) :
    studentCurrentLesson (updateStudent db sid₀ f) A = studentCurrentLesson db A := by
  by_cases hA : sid₀ = A
  · subst hA
    cases hy : findStudentById db sid₀ with
    | none =>
      unfold findStudentById at hy
      unfold studentCurrentLesson findStudentById updateStudent
      rw [updateFirst_of_forall_not]
      intro x hx
      have hx2 := List.find?_eq_none.mp hy x hx
      revert hx2
      cases (x.studentId == sid₀) <;> simp
    | some y =>
      unfold studentCurrentLesson
      rw [findStudentById_updateStudent_self db sid₀ f y hy hfid, hy]
      simp [hfc y]
  · unfold studentCurrentLesson
    rw [findStudentById_updateStudent_other db sid₀ A f hA hfid]

/-- A student absent from the final recalculation queue keeps their
current-lesson pointer through the whole loop. -/
theorem processStudents_current_of_not_recalc (ctx : BatchCtx)
    (S : List (Nat × Status)) :
    ∀ (db : DB) (acc : Accum) (A : Nat),
      A ∉ (processStudents ctx db acc S).2.recalc →
      studentCurrentLesson (processStudents ctx db acc S).1 A =
        studentCurrentLesson db A := by
  induction S with
  | nil => intro db acc A _; rfl
  | cons hd tl ih =>
    intro db acc A hnot
    obtain ⟨sid₀, st₀⟩ := hd
    rw [processStudents_cons] at hnot ⊢
    cases hfs : findStudent db sid₀ ctx.siteId with
    | none =>
      rw [processStudent_proj_none ctx db acc sid₀ st₀ hfs] at hnot ⊢
      exact ih _ _ A hnot
    | some s =>
      by_cases hu : st₀ = Status.U
      · subst hu
        rw [processStudent_proj_U ctx db acc sid₀ s hfs] at hnot ⊢
        rw [ih _ _ A hnot]
        exact studentCurrentLesson_updateStudent db sid₀ _ A (fun x => rfl) (fun x => rfl)
      · by_cases hA : sid₀ = A
        · exfalso
          subst hA
          apply hnot
          have hrec := (processStudent_proj_nonU ctx db acc sid₀ st₀ s hfs hu).2.2.2.1
          have hmem : sid₀ ∈ (processStudent ctx db acc sid₀ st₀).2.recalc := by
            rw [hrec]
            exact List.mem_append_right _ (List.mem_singleton.mpr rfl)
          exact (processStudents_mono ctx tl _ _).2.1 sid₀ hmem
        · rw [ih _ _ A hnot]
          have hstu := (processStudent_proj_nonU ctx db acc sid₀ st₀ s hfs hu).2.2.2.2
          have hfId : ∀ x : StudentRec,
              ((fun x =>
                let s1 := { x with lastActivityDate := some ctx.entryDate }
                if st₀ = Status.Y then advanceCurrentLesson ctx.lessonNumber s1 else s1) x).studentId
                = x.studentId := by
            intro x
            by_cases hy : st₀ = Status.Y
            · simp only [if_pos hy]
              exact (advanceCurrentLesson_keys _ _).1
            · simp only [if_neg hy]
          unfold studentCurrentLesson findStudentById
          rw [hstu]
          rw [find?_updateFirst_other]
          · intro y hy
            simp only [beq_iff_eq] at hy
            simp [hy, beq_eq_false_iff_ne, hA]
          · intro y
            rw [hfId y]

/-- A student in the final recalculation queue resolved successfully
against the initial state. -/
theorem processStudents_recalc_resolvable (ctx : BatchCtx)
    (S : List (Nat × Status)) :
    ∀ (db : DB) (acc : Accum) (x : Nat),
      x ∈ (processStudents ctx db acc S).2.recalc →
      x ∈ acc.recalc ∨ (findStudent db x ctx.siteId).isSome = true := by
  induction S with
  | nil => intro db acc x hx; exact Or.inl hx
  | cons hd tl ih =>
    intro db acc x hx
    obtain ⟨sid₀, st₀⟩ := hd
    rw [processStudents_cons] at hx
    have hkeys := processStudent_studentKeys ctx db acc sid₀ st₀
    rcases ih _ _ x hx with hacc | hsome
    · cases hfs : findStudent db sid₀ ctx.siteId with
      | none =>
        rw [processStudent_proj_none ctx db acc sid₀ st₀ hfs] at hacc
        exact Or.inl hacc
      | some s =>
        by_cases hu : st₀ = Status.U
        · subst hu
          rw [processStudent_proj_U ctx db acc sid₀ s hfs] at hacc
          exact Or.inl hacc
        · have hrec := (processStudent_proj_nonU ctx db acc sid₀ st₀ s hfs hu).2.2.2.1
          rw [hrec] at hacc
          rcases List.mem_append.mp hacc with h | h
          · exact Or.inl h
          · rw [List.mem_singleton] at h
            subst h
            right
            rw [hfs]
            rfl
    · right
      rw [← findStudent_isSome_congr x ctx.siteId hkeys]
      exact hsome

/-- Recalculating a student overwrites their pointer with the recomputed
maximum passed lesson. -/
theorem calculateStudentProgress_current_self (db : DB) (A : Nat) (stu : StudentRec)
    (hstu : findStudentById db A = some stu) :
    studentCurrentLesson (calculateStudentProgress db A) A =
      calculateCurrentLesson (statusMapOf db A) := by
  have hstu' := hstu
  unfold findStudentById at hstu'
  unfold calculateStudentProgress
  rw [hstu']
  unfold studentCurrentLesson
  have hs : findStudentById
      (upsertProgressRecord (updateStudent db A (fun s =>
        { s with currentLesson :=
            (computeProgressData (statusMapOf db A) stu.grade).currentLesson })) A
        (computeProgressData (statusMapOf db A) stu.grade)) A =
      findStudentById (updateStudent db A (fun s =>
        { s with currentLesson :=
            (computeProgressData (statusMapOf db A) stu.grade).currentLesson })) A := by
    unfold findStudentById
    rw [upsertProgress_students]
  rw [hs]
  rw [findStudentById_updateStudent_self db A
    (fun s => { s with currentLesson :=
      (computeProgressData (statusMapOf db A) stu.grade).currentLesson })
    stu hstu (fun x => rfl)]
  rfl

theorem recalcAll_current_of_mem (sids : List Nat) :
    ∀ (db : DB) (A : Nat), A ∈ sids →
      (findStudentById db A).isSome = true →
      studentCurrentLesson (recalcAll db sids) A =
        calculateCurrentLesson (statusMapOf db A) := by
  induction sids with
  | nil => intro db A h _; exact absurd h (by simp)
  | cons s rest ih =>
    intro db A hmem hsome
    rw [recalcAll_cons]
    by_cases hA : A ∈ rest
    · have hsome' : (findStudentById (calculateStudentProgress db s) A).isSome = true := by
        rw [findStudentById_isSome_congr A (calculateStudentProgress_studentKeys db s)]
        exact hsome
      rw [ih _ A hA hsome']
      obtain ⟨_, _, h3, _, _, _, h7⟩ := calculateStudentProgress_frame db s
      rw [statusMapOf_congr _ db A h7 h3]
    · have hAs : A = s := by
        rcases List.mem_cons.mp hmem with h | h
        · exact h
        · exact absurd h hA
      subst hAs
      obtain ⟨stu, hstu⟩ := Option.isSome_iff_exists.mp hsome
      have h1 := calculateStudentProgress_current_self db A stu hstu
      have h2 := (recalcAll_other_frame A rest (calculateStudentProgress db A) hA).1
      unfold studentCurrentLesson at h1 ⊢
      rw [h2]
      exact h1

/-! ## C3 -/

/-- Counterexample to C3 as stated: on the one-student site, submitting
lesson 105 (number 5) as Y sets `current_lesson` to 5; re-submitting the
same lesson as N makes the recalculation pass recompute the maximum
passed lesson over the overwritten Ledger, resetting `current_lesson` to
unset — a decrease. -/
theorem C3_counterexample :
    (processBatch exampleDB (exampleBatch Status.Y 100)).toOption.map
      (fun out => studentCurrentLesson out.1 1) = some (some 5) ∧
    ((processBatch exampleDB (exampleBatch Status.Y 100)).toOption.bind (fun out =>
      (processBatch out.1 (exampleBatch Status.N 101)).toOption.map
        (fun out2 => studentCurrentLesson out2.1 1))) = some none ∧
    ¬ currentLessonLE (some 5) none := by
  refine ⟨by rfl, by rfl, ?_⟩
  rintro ⟨y, hy, _⟩
  cases hy

/-- C3 as amended: across engine operations that submit only Y or U
outcomes — and across unenrollment-service archival and resolution —
`current_lesson` never decreases, starting from any state whose pointers
agree with the Ledger (as every engine-produced state does). Re-submitting
an existing lesson with a non-Y status is the exception the counterexample
forces: recalculation resets the pointer to the highest Y lesson of the
Ledger, which such a submission can lower. -/
theorem C3_amended_current_lesson_monotonic (db : DB) (inp : BatchInput)
    (out : DB × BatchResult)
    (hok : processBatch db inp = Except.ok out)
    (hcons : ∀ s ∈ db.students, s.currentLesson =
      calculateCurrentLesson (statusMapOf db s.studentId))
    (hYU : ∀ p ∈ inp.students, p.2 = Status.Y ∨ p.2 = Status.U) :
    (∀ sid, currentLessonLE (studentCurrentLesson db sid)
      (studentCurrentLesson out.1 sid)) ∧
    (∀ (db2 : DB) (logId archId sid : Nat) (rep : Option Nat) (date : Nat)
      (la no : Option String) (db3 : DB),
      unenrollStudent db2 logId archId sid rep date la no = Except.ok db3 →
      ∀ a, studentCurrentLesson db3 a = studentCurrentLesson db2 a) ∧
    (∀ (db2 : DB) (logId : Nat) (note : Option String) (db3 : DB),
      resolveUnenrollment db2 logId note = Except.ok db3 →
      ∀ a, studentCurrentLesson db3 a = studentCurrentLesson db2 a) := by
  refine ⟨?_, ?_, ?_⟩
  · intro sid
    obtain ⟨group, teacher, lesson, _, _, _, _, hout, _⟩ := processBatch_ok_elim hok
    by_cases hrec : sid ∈
        (processStudents (batchCtx inp group teacher lesson) db {} inp.students).2.recalc
    · have hres := processStudents_recalc_resolvable (batchCtx inp group teacher lesson)
        inp.students db {} sid hrec
      rcases hres with habs | hres
      · exact absurd habs (by simp [Accum])
      · have hid : (findStudentById db sid).isSome = true :=
          findStudentById_isSome_of_findStudent hres
        obtain ⟨r0, hr0⟩ := Option.isSome_iff_exists.mp hid
        have hr0mem : r0 ∈ db.students := by
          unfold findStudentById at hr0
          exact List.mem_of_find?_eq_some hr0
        have hr0id : r0.studentId = sid := by
          unfold findStudentById at hr0
          have := List.find?_some hr0
          simpa using this
        have hinit : studentCurrentLesson db sid =
            calculateCurrentLesson (statusMapOf db sid) := by
          unfold studentCurrentLesson
          rw [hr0]
          have := hcons r0 hr0mem
          rw [hr0id] at this
          simpa using this
        have hid2 : (findStudentById
            (processStudents (batchCtx inp group teacher lesson) db {} inp.students).1 sid).isSome = true := by
          rw [findStudentById_isSome_congr sid
            (processStudents_studentKeys (batchCtx inp group teacher lesson) inp.students db {})]
          exact hid
        have hfin : studentCurrentLesson out.1 sid =
            calculateCurrentLesson (statusMapOf
              (processStudents (batchCtx inp group teacher lesson) db {} inp.students).1 sid) := by
          rw [hout]
          exact recalcAll_current_of_mem _ _ sid hrec hid2
        rw [hinit, hfin]
        cases hcur : calculateCurrentLesson (statusMapOf db sid) with
        | none => trivial
        | some x =>
          have hYx : smGet (statusMapOf db sid) x = some Status.Y :=
            calculateCurrentLesson_isY _ x (statusMap_keys_nodup db sid) hcur
          have hY2 := processStudents_YIn (batchCtx inp group teacher lesson)
            inp.students db {} sid x hYU hYx
          exact calculateCurrentLesson_ge _ x hY2
    · have h1 := processStudents_current_of_not_recalc
        (batchCtx inp group teacher lesson) inp.students db {} sid hrec
      have h2 := (recalcAll_other_frame sid
        (processStudents (batchCtx inp group teacher lesson) db {} inp.students).2.recalc
        (processStudents (batchCtx inp group teacher lesson) db {} inp.students).1 hrec).1
      have : studentCurrentLesson out.1 sid = studentCurrentLesson db sid := by
        rw [hout]
        unfold studentCurrentLesson
        rw [h2]
        exact h1
      rw [this]
      exact currentLessonLE_refl _
  · intro db2 logId archId sid rep date la no db3 hok2 a
    unfold unenrollStudent at hok2
    split at hok2
    · cases hok2
    · cases hok2
  · intro db2 logId note db3 hok2 a
    unfold resolveUnenrollment at hok2
    split at hok2
    · cases hok2
    · split at hok2
      · cases hok2
      · injection hok2 with hdb3
        rw [← hdb3]
        rfl

/-- Witness for the amended C3 at the concrete all-Y batch. -/
theorem C3_amended_current_lesson_monotonic_witness :
    currentLessonLE (studentCurrentLesson exampleDB 1)
      (studentCurrentLesson (okOr (processBatch exampleDB (exampleBatch Status.Y 100))).1 1) := by
  have h := C3_amended_current_lesson_monotonic exampleDB (exampleBatch Status.Y 100)
    (okOr (processBatch exampleDB (exampleBatch Status.Y 100)))
    (by rfl)
    (by
      intro s hs
      rcases List.mem_singleton.mp hs with rfl
      rfl)
    (by
      intro p hp
      rcases List.mem_singleton.mp hp with rfl
      exact Or.inl rfl)
  exact h.1 1

/-! ## C7: idempotent re-submission — Ledger side -/

theorem upsertAllLedger_nil (ctx : BatchCtx) (L : List LedgerRec) :
    upsertAllLedger ctx L [] = L := rfl

theorem upsertAllLedger_cons (ctx : BatchCtx) (L : List LedgerRec) (sid : Nat)
    (st : Status) (rest : List (Nat × Status)) :
    upsertAllLedger ctx L ((sid, st) :: rest) =
      upsertAllLedger ctx (upsertLedger L ctx sid st).1 rest := rfl

theorem effectivePairs_nil (db0 : DB) (ctx : BatchCtx) :
    effectivePairs db0 ctx [] = [] := rfl

theorem effectivePairs_cons (db0 : DB) (ctx : BatchCtx) (sid : Nat) (st : Status)
    (tl : List (Nat × Status)) :
    effectivePairs db0 ctx ((sid, st) :: tl) =
      if (findStudent db0 sid ctx.siteId).isSome && !(decide (st = Status.U)) then
        (sid, st) :: effectivePairs db0 ctx tl
      else effectivePairs db0 ctx tl := by
  unfold effectivePairs
  rw [List.filter_cons]

/-- The Ledger the loop leaves behind is the sequence of upserts over the
effective pairs (resolution read against any state with the same student
keys). -/
theorem processStudents_ledger_eq (ctx : BatchCtx) (S : List (Nat × Status)) :
    ∀ (db : DB) (acc : Accum) (db0 : DB),
      db.students.map (fun s => (s.studentId, s.siteId)) =
        db0.students.map (fun s => (s.studentId, s.siteId)) →
      (processStudents ctx db acc S).1.ledger =
        upsertAllLedger ctx db.ledger (effectivePairs db0 ctx S) := by
  induction S with
  | nil => intro db acc db0 _; rfl
  | cons hd tl ih =>
    intro db acc db0 hkeys
    obtain ⟨sid, st⟩ := hd
    rw [processStudents_cons, effectivePairs_cons]
    have hres : (findStudent db sid ctx.siteId).isSome =
        (findStudent db0 sid ctx.siteId).isSome :=
      findStudent_isSome_congr sid ctx.siteId hkeys
    cases hfs : findStudent db sid ctx.siteId with
    | none =>
      have h0 : (findStudent db0 sid ctx.siteId).isSome = false := by
        rw [← hres, hfs]; rfl
      rw [if_neg (by simp [h0])]
      rw [processStudent_proj_none ctx db acc sid st hfs]
      exact ih db _ db0 hkeys
    | some s =>
      have h0 : (findStudent db0 sid ctx.siteId).isSome = true := by
        rw [← hres, hfs]; rfl
      by_cases hu : st = Status.U
      · subst hu
        rw [if_neg (by simp [h0])]
        rw [processStudent_proj_U ctx db acc sid s hfs]
        have hkeys' : (updateStudent db sid (markUnenrolled ctx.entryDate)).students.map
            (fun s => (s.studentId, s.siteId)) =
            db0.students.map (fun s => (s.studentId, s.siteId)) := by
          rw [updateStudent_studentKeys db sid (markUnenrolled ctx.entryDate)
            (fun s => ⟨rfl, rfl⟩)]
          exact hkeys
        exact ih _ _ db0 hkeys'
      · rw [if_pos (by simp [h0, hu])]
        rw [upsertAllLedger_cons]
        obtain ⟨hl, _, _, _, _⟩ := processStudent_proj_nonU ctx db acc sid st s hfs hu
        have hkeys' : (processStudent ctx db acc sid st).1.students.map
            (fun s => (s.studentId, s.siteId)) =
            db0.students.map (fun s => (s.studentId, s.siteId)) := by
          rw [processStudent_studentKeys]
          exact hkeys
        rw [ih (processStudent ctx db acc sid st).1 (processStudent ctx db acc sid st).2
          db0 hkeys', hl]

/-- The recalculation queue the loop leaves behind is the student ids of
the effective pairs, in batch order. -/
theorem processStudents_recalc_eq (ctx : BatchCtx) (S : List (Nat × Status)) :
    ∀ (db : DB) (acc : Accum) (db0 : DB),
      db.students.map (fun s => (s.studentId, s.siteId)) =
        db0.students.map (fun s => (s.studentId, s.siteId)) →
      (processStudents ctx db acc S).2.recalc =
        acc.recalc ++ (effectivePairs db0 ctx S).map Prod.fst := by
  induction S with
  | nil =>
    intro db acc db0 _
    rw [effectivePairs_nil]
    show acc.recalc = acc.recalc ++ []
    rw [List.append_nil]
  | cons hd tl ih =>
    intro db acc db0 hkeys
    obtain ⟨sid, st⟩ := hd
    rw [processStudents_cons, effectivePairs_cons]
    have hres : (findStudent db sid ctx.siteId).isSome =
        (findStudent db0 sid ctx.siteId).isSome :=
      findStudent_isSome_congr sid ctx.siteId hkeys
    cases hfs : findStudent db sid ctx.siteId with
    | none =>
      have h0 : (findStudent db0 sid ctx.siteId).isSome = false := by
        rw [← hres, hfs]; rfl
      rw [if_neg (by simp [h0])]
      rw [processStudent_proj_none ctx db acc sid st hfs]
      exact ih db _ db0 hkeys
    | some s =>
      have h0 : (findStudent db0 sid ctx.siteId).isSome = true := by
        rw [← hres, hfs]; rfl
      by_cases hu : st = Status.U
      · subst hu
        rw [if_neg (by simp [h0])]
        rw [processStudent_proj_U ctx db acc sid s hfs]
        have hkeys' : (updateStudent db sid (markUnenrolled ctx.entryDate)).students.map
            (fun s => (s.studentId, s.siteId)) =
            db0.students.map (fun s => (s.studentId, s.siteId)) := by
          rw [updateStudent_studentKeys db sid (markUnenrolled ctx.entryDate)
            (fun s => ⟨rfl, rfl⟩)]
          exact hkeys
        exact ih _ _ db0 hkeys'
      · rw [if_pos (by simp [h0, hu])]
        obtain ⟨_, _, _, hrec, _⟩ := processStudent_proj_nonU ctx db acc sid st s hfs hu
        have hkeys' : (processStudent ctx db acc sid st).1.students.map
            (fun s => (s.studentId, s.siteId)) =
            db0.students.map (fun s => (s.studentId, s.siteId)) := by
          rw [processStudent_studentKeys]
          exact hkeys
        rw [ih (processStudent ctx db acc sid st).1 (processStudent ctx db acc sid st).2
          db0 hkeys', hrec, List.map_cons, List.append_assoc, List.singleton_append]

theorem upsertAllLedger_any_mono (ctx : BatchCtx) (ws : List (Nat × Status)) :
    ∀ (L : List LedgerRec) (a b : Nat),
      L.any (ledgerKeyMatch a b) = true →
      (upsertAllLedger ctx L ws).any (ledgerKeyMatch a b) = true := by
  induction ws with
  | nil => intro L a b h; exact h
  | cons hd tl ih =>
    intro L a b h
    obtain ⟨sid, st⟩ := hd
    rw [upsertAllLedger_cons]
    exact ih _ a b (upsertLedger_any_mono L ctx sid st a b h)

theorem upsertAllLedger_any_of_mem (ctx : BatchCtx) (ws : List (Nat × Status)) :
    ∀ (L : List LedgerRec) (sid : Nat) (st : Status), (sid, st) ∈ ws →
      (upsertAllLedger ctx L ws).any (ledgerKeyMatch sid ctx.lessonId) = true := by
  induction ws with
  | nil => intro L sid st h; exact absurd h (by simp)
  | cons hd tl ih =>
    intro L sid st h
    obtain ⟨sid₂, st₂⟩ := hd
    rw [upsertAllLedger_cons]
    rcases List.mem_cons.mp h with hhd | htl
    · obtain ⟨rfl, rfl⟩ := (Prod.mk.injEq _ _ _ _).mp hhd
      exact upsertAllLedger_any_mono ctx tl _ sid ctx.lessonId
        (upsertLedger_any_self L ctx sid st)
    · exact ih _ sid st htl

theorem upsertLedger_of_any (L : List LedgerRec) (ctx : BatchCtx) (sid : Nat)
    (st : Status) (h : L.any (ledgerKeyMatch sid ctx.lessonId) = true) :
    (upsertLedger L ctx sid st).1 =
      updateFirst (ledgerKeyMatch sid ctx.lessonId) (ledgerOverwrite ctx st) L := by
  unfold upsertLedger
  rw [if_pos h]

theorem updateFirst_congr {α : Type} (p : α → Bool) (f g : α → α) (L : List α)
    (h : ∀ x, f x = g x) : updateFirst p f L = updateFirst p g L := by
  induction L with
  | nil => rfl
  | cons x xs ih =>
    by_cases hp : p x <;> simp [updateFirst, hp, h, ih]

theorem ledgerOverwrite_absorb (ctx : BatchCtx) (v st : Status) (x : LedgerRec) :
    ledgerOverwrite ctx st (ledgerOverwrite ctx v x) = ledgerOverwrite ctx st x := rfl

theorem ledgerKeyMatch_newRec (sid₂ sid lid : Nat) (ctx : BatchCtx) (st₂ : Status)
    (hne : sid₂ ≠ sid) :
    ledgerKeyMatch sid lid
      { studentId := sid₂, lessonId := ctx.lessonId,
        groupId := some ctx.groupId, teacherId := some ctx.teacherId,
        status := st₂, completedDate := some ctx.entryDate,
        isInitial := false } = false := by
  unfold ledgerKeyMatch
  simp [beq_eq_false_iff_ne, hne]

/-- A stale overwrite of a key that a later pair of the sequence writes
again is absorbed by that later write. -/
theorem upsertAllLedger_absorb (ctx : BatchCtx) (ws : List (Nat × Status)) :
    ∀ (L : List LedgerRec) (sid : Nat) (v : Status),
      (∃ st, (sid, st) ∈ ws) →
      upsertAllLedger ctx
          (updateFirst (ledgerKeyMatch sid ctx.lessonId) (ledgerOverwrite ctx v) L) ws =
        upsertAllLedger ctx L ws := by
  induction ws with
  | nil => intro L sid v h; exact absurd h (by simp)
  | cons hd tl ih =>
    intro L sid v h
    obtain ⟨sid₂, st₂⟩ := hd
    rw [upsertAllLedger_cons, upsertAllLedger_cons]
    have hany_eq :
        (updateFirst (ledgerKeyMatch sid ctx.lessonId) (ledgerOverwrite ctx v) L).any
            (ledgerKeyMatch sid₂ ctx.lessonId) =
          L.any (ledgerKeyMatch sid₂ ctx.lessonId) :=
      any_updateFirst _ _ _ L (fun x => rfl)
    by_cases hs : sid₂ = sid
    · rcases hs with rfl
      have hstep :
          (upsertLedger
              (updateFirst (ledgerKeyMatch sid₂ ctx.lessonId) (ledgerOverwrite ctx v) L)
              ctx sid₂ st₂).1 =
            (upsertLedger L ctx sid₂ st₂).1 := by
        unfold upsertLedger
        rw [hany_eq]
        by_cases hany : L.any (ledgerKeyMatch sid₂ ctx.lessonId) = true
        · rw [if_pos hany, if_pos hany]
          dsimp only
          rw [updateFirst_updateFirst (ledgerKeyMatch sid₂ ctx.lessonId)
            (ledgerOverwrite ctx st₂) (ledgerOverwrite ctx v) L (fun y => rfl)]
          exact updateFirst_congr _ _ _ L (fun x => rfl)
        · rw [if_neg hany, if_neg hany]
          dsimp only
          have hall : ∀ x ∈ L, ledgerKeyMatch sid₂ ctx.lessonId x = false := by
            intro x hx
            rcases Bool.eq_false_or_eq_true (ledgerKeyMatch sid₂ ctx.lessonId x) with ht | hf
            · exact absurd (List.any_eq_true.mpr ⟨x, hx, ht⟩) hany
            · exact hf
          rw [updateFirst_of_forall_not _ _ L hall]
      rw [hstep]
    · have hstep :
          (upsertLedger
              (updateFirst (ledgerKeyMatch sid ctx.lessonId) (ledgerOverwrite ctx v) L)
              ctx sid₂ st₂).1 =
            updateFirst (ledgerKeyMatch sid ctx.lessonId) (ledgerOverwrite ctx v)
              (upsertLedger L ctx sid₂ st₂).1 := by
        unfold upsertLedger
        rw [hany_eq]
        by_cases hany : L.any (ledgerKeyMatch sid₂ ctx.lessonId) = true
        · rw [if_pos hany, if_pos hany]
          dsimp only
          refine updateFirst_comm _ _ _ _ L ?_ (fun y => rfl) (fun y => rfl)
          intro y hy
          unfold ledgerKeyMatch at hy ⊢
          simp only [Bool.and_eq_true, beq_iff_eq] at hy
          simp [hy.1.1, beq_eq_false_iff_ne, hs]
        · rw [if_neg hany, if_neg hany]
          dsimp only
          by_cases h2 : L.any (ledgerKeyMatch sid ctx.lessonId) = true
          · rw [updateFirst_append_left _ _ L _ h2]
          · have hall : ∀ x ∈ L, ledgerKeyMatch sid ctx.lessonId x = false := by
              intro x hx
              rcases Bool.eq_false_or_eq_true (ledgerKeyMatch sid ctx.lessonId x) with ht | hf
              · exact absurd (List.any_eq_true.mpr ⟨x, hx, ht⟩) h2
              · exact hf
            have hall' : ∀ x ∈ L ++
                [{ studentId := sid₂, lessonId := ctx.lessonId,
                   groupId := some ctx.groupId, teacherId := some ctx.teacherId,
                   status := st₂, completedDate := some ctx.entryDate,
                   isInitial := false }], ledgerKeyMatch sid ctx.lessonId x = false := by
              intro x hx
              rcases List.mem_append.mp hx with hl | hr
              · exact hall x hl
              · rw [List.mem_singleton] at hr
                subst hr
                exact ledgerKeyMatch_newRec sid₂ sid ctx.lessonId ctx st₂ hs
            rw [updateFirst_of_forall_not _ _ L hall, updateFirst_of_forall_not _ _ _ hall']
      rw [hstep]
      have hmem : ∃ st, (sid, st) ∈ tl := by
        obtain ⟨st', hst'⟩ := h
        rcases List.mem_cons.mp hst' with hhd | htl
        · obtain ⟨h1, _⟩ := (Prod.mk.injEq _ _ _ _).mp hhd
          exact absurd h1.symm hs
        · exact ⟨st', htl⟩
      exact ih _ sid v hmem

/-- The row an upsert leaves under its own key is a fixpoint of the same
overwrite. -/
theorem upsertLedger_find_self (L : List LedgerRec) (ctx : BatchCtx) (sid : Nat)
    (st : Status) :
    ∃ r, (upsertLedger L ctx sid st).1.find? (ledgerKeyMatch sid ctx.lessonId) = some r ∧
      ledgerOverwrite ctx st r = r := by
  unfold upsertLedger
  split
  · rename_i hany
    dsimp only
    have hsome : (L.find? (ledgerKeyMatch sid ctx.lessonId)).isSome = true := by
      rw [List.find?_isSome]
      obtain ⟨x, hx, hpx⟩ := List.any_eq_true.mp hany
      exact ⟨x, hx, hpx⟩
    obtain ⟨x, hx⟩ := Option.isSome_iff_exists.mp hsome
    exact ⟨ledgerOverwrite ctx st x,
      find?_updateFirst_self _ _ L x (fun y => rfl) hx, rfl⟩
  · rename_i hany
    dsimp only
    refine ⟨{ studentId := sid, lessonId := ctx.lessonId,
              groupId := some ctx.groupId, teacherId := some ctx.teacherId,
              status := st, completedDate := some ctx.entryDate,
              isInitial := false }, ?_, rfl⟩
    rw [List.find?_append]
    have hnone : L.find? (ledgerKeyMatch sid ctx.lessonId) = none := by
      rw [List.find?_eq_none]
      intro x hx
      intro hpx
      exact hany (List.any_eq_true.mpr ⟨x, hx, hpx⟩)
    rw [hnone]
    have hk : ledgerKeyMatch sid ctx.lessonId
        { studentId := sid, lessonId := ctx.lessonId,
          groupId := some ctx.groupId, teacherId := some ctx.teacherId,
          status := st, completedDate := some ctx.entryDate,
          isInitial := false } = true := by
      simp [ledgerKeyMatch]
    rw [List.find?_cons_of_pos _ hk]
    rfl

/-- An upsert for a different student does not move any other student's
first-match row. -/
theorem upsertLedger_find_other (L : List LedgerRec) (ctx : BatchCtx)
    (sid₂ : Nat) (st₂ : Status) (sid : Nat) (hne : sid₂ ≠ sid) :
    (upsertLedger L ctx sid₂ st₂).1.find? (ledgerKeyMatch sid ctx.lessonId) =
      L.find? (ledgerKeyMatch sid ctx.lessonId) := by
  unfold upsertLedger
  split
  · dsimp only
    refine find?_updateFirst_other _ _ _ L ?_ (fun y => rfl)
    intro y hy
    unfold ledgerKeyMatch at hy ⊢
    simp only [Bool.and_eq_true, beq_iff_eq] at hy
    simp [hy.1.1, beq_eq_false_iff_ne, hne]
  · dsimp only
    rw [List.find?_append]
    rw [List.find?_cons_of_neg _ (by
      rw [ledgerKeyMatch_newRec sid₂ sid ctx.lessonId ctx st₂ hne]
      simp), List.find?_nil, Option.or_none]

theorem upsertAllLedger_find_other (ctx : BatchCtx) (ws : List (Nat × Status)) :
    ∀ (L : List LedgerRec) (sid : Nat), (∀ p ∈ ws, p.1 ≠ sid) →
      (upsertAllLedger ctx L ws).find? (ledgerKeyMatch sid ctx.lessonId) =
        L.find? (ledgerKeyMatch sid ctx.lessonId) := by
  induction ws with
  | nil => intro L sid _; rfl
  | cons hd tl ih =>
    intro L sid h
    obtain ⟨sid₂, st₂⟩ := hd
    rw [upsertAllLedger_cons]
    rw [ih _ sid (fun p hp => h p (List.mem_cons_of_mem _ hp))]
    exact upsertLedger_find_other L ctx sid₂ st₂ sid
      (h (sid₂, st₂) (List.mem_cons_self _ _))

/-- An upsert whose overwrite fixes the first-match row changes nothing. -/
theorem upsertLedger_fixed (L : List LedgerRec) (ctx : BatchCtx) (sid : Nat)
    (st : Status) (r : LedgerRec)
    (hr : L.find? (ledgerKeyMatch sid ctx.lessonId) = some r)
    (hfix : ledgerOverwrite ctx st r = r) :
    (upsertLedger L ctx sid st).1 = L := by
  have hany : L.any (ledgerKeyMatch sid ctx.lessonId) = true :=
    List.any_eq_true.mpr ⟨r, List.mem_of_find?_eq_some hr, List.find?_some hr⟩
  rw [upsertLedger_of_any L ctx sid st hany]
  exact updateFirst_fixed _ _ L r hr hfix

/-- Replaying the same upsert sequence over its own output is a no-op. -/
theorem upsertAllLedger_idem (ctx : BatchCtx) (ws : List (Nat × Status)) :
    ∀ L : List LedgerRec,
      upsertAllLedger ctx (upsertAllLedger ctx L ws) ws = upsertAllLedger ctx L ws := by
  induction ws with
  | nil => intro L; rfl
  | cons hd tl ih =>
    intro L
    obtain ⟨sid, st⟩ := hd
    show upsertAllLedger ctx
        (upsertLedger (upsertAllLedger ctx (upsertLedger L ctx sid st).1 tl)
          ctx sid st).1 tl =
      upsertAllLedger ctx (upsertLedger L ctx sid st).1 tl
    by_cases hr : ∃ st', (sid, st') ∈ tl
    · have hpres :
          (upsertAllLedger ctx (upsertLedger L ctx sid st).1 tl).any
            (ledgerKeyMatch sid ctx.lessonId) = true :=
        upsertAllLedger_any_mono ctx tl _ sid ctx.lessonId
          (upsertLedger_any_self L ctx sid st)
      rw [upsertLedger_of_any _ ctx sid st hpres]
      rw [upsertAllLedger_absorb ctx tl _ sid st hr]
      exact ih (upsertLedger L ctx sid st).1
    · have hforall : ∀ p ∈ tl, p.1 ≠ sid := by
        intro p hp heq
        exact hr ⟨p.2, by rw [← heq, Prod.mk.eta]; exact hp⟩
      obtain ⟨r, hfind, hfix⟩ := upsertLedger_find_self L ctx sid st
      have hfindM :
          (upsertAllLedger ctx (upsertLedger L ctx sid st).1 tl).find?
            (ledgerKeyMatch sid ctx.lessonId) = some r := by
        rw [upsertAllLedger_find_other ctx tl _ sid hforall]
        exact hfind
      rw [upsertLedger_fixed _ ctx sid st r hfindM hfix]
      exact ih (upsertLedger L ctx sid st).1

/-! ## C7: idempotent re-submission — progress-record side -/

theorem applyProgressData_idem (d : ProgressData) (pr : ProgressRec) :
    applyProgressData d (applyProgressData d pr) = applyProgressData d pr := rfl

theorem advanceCurrentLesson_grade (n : Nat) (s : StudentRec) :
    (advanceCurrentLesson n s).grade = s.grade := by
  unfold advanceCurrentLesson
  split
  · rfl
  · split <;> rfl

theorem gradeView_congr (dbA dbB : DB) (hs : dbA.students = dbB.students) (a : Nat) :
    gradeView dbA a = gradeView dbB a := by
  unfold gradeView findStudentById
  rw [hs]

theorem gradeView_updateStudent (db : DB) (sid₀ : Nat) (f : StudentRec → StudentRec)
    (hfid : ∀ s, (f s).studentId = s.studentId)
    (hfg : ∀ s, (f s).grade = s.grade) (a : Nat) :
    gradeView (updateStudent db sid₀ f) a = gradeView db a := by
  unfold gradeView
  by_cases h : sid₀ = a
  · subst h
    cases hs : findStudentById db sid₀ with
    | none =>
      have hall : ∀ x ∈ db.students, (fun s => s.studentId == sid₀) x = false := by
        unfold findStudentById at hs
        exact fun x hx => by
          have := List.find?_eq_none.mp hs x hx
          simpa using this
      have hfix : (updateStudent db sid₀ f).students = db.students :=
        updateFirst_of_forall_not _ _ db.students hall
      unfold findStudentById at hs
      unfold findStudentById updateStudent at hfix ⊢
      rw [hfix, hs]
    | some s =>
      rw [findStudentById_updateStudent_self db sid₀ f s hs hfid]
      simp [hfg]
  · rw [findStudentById_updateStudent_other db sid₀ a f h hfid]

theorem gradeView_calculateStudentProgress (db : DB) (s a : Nat) :
    gradeView (calculateStudentProgress db s) a = gradeView db a := by
  unfold calculateStudentProgress
  cases hf : db.students.find? (fun x => x.studentId == s) with
  | none => rfl
  | some stu =>
    dsimp only
    refine (gradeView_congr _ _ (upsertProgress_students _ _ _) a).trans ?_
    exact gradeView_updateStudent db s
      (fun s1 => { s1 with
        currentLesson := (computeProgressData (statusMapOf db s) stu.grade).currentLesson })
      (fun x => rfl) (fun x => rfl) a

theorem gradeView_recalcAll (sids : List Nat) :
    ∀ (db : DB) (a : Nat), gradeView (recalcAll db sids) a = gradeView db a := by
  induction sids with
  | nil => intro db a; rfl
  | cons s rest ih =>
    intro db a
    rw [recalcAll_cons, ih (calculateStudentProgress db s) a,
      gradeView_calculateStudentProgress db s a]

theorem gradeView_processStudent (ctx : BatchCtx) (db : DB) (acc : Accum)
    (sid₀ : Nat) (st₀ : Status) (a : Nat) :
    gradeView (processStudent ctx db acc sid₀ st₀).1 a = gradeView db a := by
  cases hfs : findStudent db sid₀ ctx.siteId with
  | none => rw [processStudent_proj_none ctx db acc sid₀ st₀ hfs]
  | some s =>
    by_cases hu : st₀ = Status.U
    · subst hu
      rw [processStudent_proj_U ctx db acc sid₀ s hfs]
      exact gradeView_updateStudent db sid₀ (markUnenrolled ctx.entryDate)
        (fun x => rfl) (fun x => rfl) a
    · obtain ⟨_, _, _, _, hstud⟩ := processStudent_proj_nonU ctx db acc sid₀ st₀ s hfs hu
      have hST : (processStudent ctx db acc sid₀ st₀).1.students =
          (updateStudent db sid₀ (fun x =>
            let s1 := { x with lastActivityDate := some ctx.entryDate }
            if st₀ = Status.Y then advanceCurrentLesson ctx.lessonNumber s1 else s1)).students :=
        hstud
      refine (gradeView_congr _ _ hST a).trans ?_
      refine gradeView_updateStudent db sid₀ _ (fun x => ?_) (fun x => ?_) a
      · dsimp only
        by_cases hy : st₀ = Status.Y
        · rw [if_pos hy]
          exact (advanceCurrentLesson_keys _ _).1
        · rw [if_neg hy]
      · dsimp only
        by_cases hy : st₀ = Status.Y
        · rw [if_pos hy]
          exact advanceCurrentLesson_grade _ _
        · rw [if_neg hy]

theorem gradeView_processStudents (ctx : BatchCtx) (S : List (Nat × Status)) :
    ∀ (db : DB) (acc : Accum) (a : Nat),
      gradeView (processStudents ctx db acc S).1 a = gradeView db a := by
  induction S with
  | nil => intro db acc a; rfl
  | cons hd tl ih =>
    intro db acc a
    obtain ⟨sid, st⟩ := hd
    rw [processStudents_cons, ih _ _ a, gradeView_processStudent ctx db acc sid st a]

theorem recalcAll_studentKeys (sids : List Nat) :
    ∀ db : DB,
      (recalcAll db sids).students.map (fun s => (s.studentId, s.siteId)) =
        db.students.map (fun s => (s.studentId, s.siteId)) := by
  induction sids with
  | nil => intro db; rfl
  | cons s rest ih =>
    intro db
    rw [recalcAll_cons, ih (calculateStudentProgress db s),
      calculateStudentProgress_studentKeys db s]

theorem statusMapOf_calc (db : DB) (s sid : Nat) :
    statusMapOf (calculateStudentProgress db s) sid = statusMapOf db sid :=
  statusMapOf_congr _ _ sid (calculateStudentProgress_frame db s).2.2.2.2.2.2
    (calculateStudentProgress_frame db s).2.2.1

theorem statusMapOf_recalcAll (sids : List Nat) (db : DB) (sid : Nat) :
    statusMapOf (recalcAll db sids) sid = statusMapOf db sid :=
  statusMapOf_congr _ _ sid (recalcAll_frame sids db).2.2.2.2.2.2
    (recalcAll_frame sids db).2.2.1

/-- The progress row an upsert leaves under its own key carries the
written data. -/
theorem upsertProgress_find_self (db : DB) (sid : Nat) (d : ProgressData) :
    ∃ x, (upsertProgressRecord db sid d).progressRecords.find? (progressKeyMatch sid) =
      some (applyProgressData d x) := by
  unfold upsertProgressRecord
  split
  · rename_i hany
    dsimp only
    have hsome : (db.progressRecords.find? (progressKeyMatch sid)).isSome = true := by
      rw [List.find?_isSome]
      obtain ⟨x, hx, hpx⟩ := List.any_eq_true.mp hany
      exact ⟨x, hx, hpx⟩
    obtain ⟨x, hx⟩ := Option.isSome_iff_exists.mp hsome
    exact ⟨x, find?_updateFirst_self _ _ _ x (fun y => rfl) hx⟩
  · rename_i hany
    dsimp only
    refine ⟨blankProgressRec sid, ?_⟩
    rw [List.find?_append]
    have hnone : db.progressRecords.find? (progressKeyMatch sid) = none := by
      rw [List.find?_eq_none]
      intro x hx hpx
      exact hany (List.any_eq_true.mpr ⟨x, hx, hpx⟩)
    rw [hnone]
    have hk : progressKeyMatch sid (applyProgressData d (blankProgressRec sid)) = true := by
      simp [progressKeyMatch, applyProgressData, blankProgressRec]
    rw [List.find?_cons_of_pos _ hk]
    rfl

theorem upsertProgress_find_other (db : DB) (sid₂ : Nat) (d : ProgressData)
    (a : Nat) (hne : sid₂ ≠ a) :
    (upsertProgressRecord db sid₂ d).progressRecords.find? (progressKeyMatch a) =
      db.progressRecords.find? (progressKeyMatch a) := by
  unfold upsertProgressRecord
  split
  · dsimp only
    refine find?_updateFirst_other _ _ _ _ ?_ (fun y => rfl)
    intro y hy
    unfold progressKeyMatch at hy ⊢
    simp only [Bool.and_eq_true, beq_iff_eq] at hy
    simp [hy.1, beq_eq_false_iff_ne, hne]
  · dsimp only
    rw [List.find?_append]
    have hnew : progressKeyMatch a (applyProgressData d (blankProgressRec sid₂)) = false := by
      simp [progressKeyMatch, applyProgressData, blankProgressRec,
        beq_eq_false_iff_ne, hne]
    rw [List.find?_cons_of_neg _ (by simp [hnew]), List.find?_nil, Option.or_none]

theorem calc_find_pr_other (db : DB) (s a : Nat) (hne : s ≠ a) :
    (calculateStudentProgress db s).progressRecords.find? (progressKeyMatch a) =
      db.progressRecords.find? (progressKeyMatch a) := by
  unfold calculateStudentProgress
  cases hf : db.students.find? (fun x => x.studentId == s) with
  | none => rfl
  | some stu =>
    dsimp only
    exact upsertProgress_find_other _ s _ a hne

theorem recalcAll_find_pr_other (sids : List Nat) :
    ∀ (db : DB) (a : Nat), a ∉ sids →
      (recalcAll db sids).progressRecords.find? (progressKeyMatch a) =
        db.progressRecords.find? (progressKeyMatch a) := by
  induction sids with
  | nil => intro db a _; rfl
  | cons s rest ih =>
    intro db a ha
    rw [recalcAll_cons, ih (calculateStudentProgress db s) a
      (fun h => ha (List.mem_cons_of_mem _ h))]
    exact calc_find_pr_other db s a (fun h => ha (h ▸ List.mem_cons_self _ _))

/-- A recalculation pass over students whose cached record is already the
fixpoint of their recomputation leaves the progress table unchanged. -/
theorem recalcAll_pr_fixpoint (sids : List Nat) :
    ∀ db : DB,
      (∀ sid ∈ sids, ∀ stu, findStudentById db sid = some stu →
        ∃ pr, db.progressRecords.find? (progressKeyMatch sid) = some pr ∧
          applyProgressData (computeProgressData (statusMapOf db sid) stu.grade) pr = pr) →
      (recalcAll db sids).progressRecords = db.progressRecords := by
  induction sids with
  | nil => intro db _; rfl
  | cons s rest ih =>
    intro db hfix
    rw [recalcAll_cons]
    have hstep : (calculateStudentProgress db s).progressRecords = db.progressRecords := by
      unfold calculateStudentProgress
      cases hf : db.students.find? (fun x => x.studentId == s) with
      | none => rfl
      | some stu =>
        dsimp only
        have hsid : findStudentById db s = some stu := hf
        obtain ⟨pr, hpr, hfx⟩ := hfix s (List.mem_cons_self s rest) stu hsid
        have hany : db.progressRecords.any (progressKeyMatch s) = true :=
          List.any_eq_true.mpr ⟨pr, List.mem_of_find?_eq_some hpr, List.find?_some hpr⟩
        unfold upsertProgressRecord
        split
        · show updateFirst (progressKeyMatch s)
            (applyProgressData (computeProgressData (statusMapOf db s) stu.grade))
            db.progressRecords = db.progressRecords
          exact updateFirst_fixed _ _ db.progressRecords pr hpr hfx
        · rename_i hneg
          exact absurd hany hneg
    have hfix' : ∀ sid ∈ rest, ∀ stu',
        findStudentById (calculateStudentProgress db s) sid = some stu' →
        ∃ pr, (calculateStudentProgress db s).progressRecords.find?
            (progressKeyMatch sid) = some pr ∧
          applyProgressData (computeProgressData
            (statusMapOf (calculateStudentProgress db s) sid) stu'.grade) pr = pr := by
      intro sid hmem stu' hstu'
      have hgv : gradeView (calculateStudentProgress db s) sid = gradeView db sid :=
        gradeView_calculateStudentProgress db s sid
      unfold gradeView at hgv
      rw [hstu'] at hgv
      obtain ⟨stu₀, hstu₀, hgr⟩ := Option.map_eq_some'.mp hgv.symm
      obtain ⟨pr, hpr, hfx⟩ := hfix sid (List.mem_cons_of_mem _ hmem) stu₀ hstu₀
      refine ⟨pr, ?_, ?_⟩
      · rw [hstep]
        exact hpr
      · have hgr' : stu₀.grade = stu'.grade := hgr
        rw [statusMapOf_calc db s sid, ← hgr']
        exact hfx
    rw [ih (calculateStudentProgress db s) hfix', hstep]

/-- After a recalculation pass, every recalculated student's cached record
is the fixpoint of its recomputation in the final state. -/
theorem recalcAll_post_fixpoint (sids : List Nat) :
    ∀ (db : DB) (sid : Nat), sid ∈ sids →
      ∀ stu, findStudentById (recalcAll db sids) sid = some stu →
        ∃ pr, (recalcAll db sids).progressRecords.find? (progressKeyMatch sid) = some pr ∧
          applyProgressData
            (computeProgressData (statusMapOf (recalcAll db sids) sid) stu.grade) pr = pr := by
  induction sids with
  | nil => intro db sid h; exact absurd h (by simp)
  | cons s rest ih =>
    intro db sid hmem stu hstu
    rw [recalcAll_cons] at hstu ⊢
    by_cases hsr : sid ∈ rest
    · exact ih (calculateStudentProgress db s) sid hsr stu hstu
    · have hss : sid = s := by
        rcases List.mem_cons.mp hmem with h | h
        · exact h
        · exact absurd h hsr
      subst hss
      cases hf : db.students.find? (fun x => x.studentId == sid) with
      | none =>
        have hdb : calculateStudentProgress db sid = db := by
          unfold calculateStudentProgress
          rw [hf]
        rw [hdb] at hstu
        have hcongr := findStudentById_isSome_congr sid (recalcAll_studentKeys rest db)
        rw [hstu] at hcongr
        have hnone : findStudentById db sid = none := hf
        rw [hnone] at hcongr
        cases hcongr
      | some stu₀ =>
        have hPR : ∃ x, (calculateStudentProgress db sid).progressRecords.find?
            (progressKeyMatch sid) =
            some (applyProgressData
              (computeProgressData (statusMapOf db sid) stu₀.grade) x) := by
          unfold calculateStudentProgress
          rw [hf]
          dsimp only
          exact upsertProgress_find_self _ sid _
        obtain ⟨x, hx⟩ := hPR
        have hrest : (recalcAll (calculateStudentProgress db sid) rest).progressRecords.find?
            (progressKeyMatch sid) =
            (calculateStudentProgress db sid).progressRecords.find?
              (progressKeyMatch sid) :=
          recalcAll_find_pr_other rest (calculateStudentProgress db sid) sid hsr
        refine ⟨applyProgressData
            (computeProgressData (statusMapOf db sid) stu₀.grade) x,
          by rw [hrest, hx], ?_⟩
        have hsm : statusMapOf (recalcAll (calculateStudentProgress db sid) rest) sid =
            statusMapOf db sid := by
          rw [statusMapOf_recalcAll rest _ sid, statusMapOf_calc db sid sid]
        have hgr : stu.grade = stu₀.grade := by
          have h1 : gradeView (recalcAll (calculateStudentProgress db sid) rest) sid =
              gradeView db sid := by
            rw [gradeView_recalcAll rest _ sid, gradeView_calculateStudentProgress db sid sid]
          unfold gradeView at h1
          rw [hstu] at h1
          have hf' : findStudentById db sid = some stu₀ := hf
          rw [hf'] at h1
          rw [Option.map_some'] at h1
          exact Option.some.inj h1
        rw [hsm, hgr]
        exact applyProgressData_idem _ x

/-- C7: submitting the same batch (same group, teacher, lesson, date and
student/outcome pairs, with no U outcome) a second time is idempotent with
respect to the Ledger and the cached progress records: the second run also
succeeds, and its final Ledger and progress-record table equal those after
the first run. -/
theorem C7_idempotent_resubmission (db : DB) (inp : BatchInput)
    (out1 : DB × BatchResult)
    (hok : processBatch db inp = Except.ok out1)
    (hU : ∀ p ∈ inp.students, p.2 ≠ Status.U) :
    ∃ out2, processBatch out1.1 inp = Except.ok out2 ∧
      out2.1.ledger = out1.1.ledger ∧
      out2.1.progressRecords = out1.1.progressRecords := by
  obtain ⟨group, teacher, lesson, hg, ht, hl, hid, hout1, hres1⟩ := processBatch_ok_elim hok
  have hframe1 := processStudents_frame (batchCtx inp group teacher lesson) inp.students db {}
  have hrframe1 := recalcAll_frame
    (processStudents (batchCtx inp group teacher lesson) db {} inp.students).2.recalc
    (processStudents (batchCtx inp group teacher lesson) db {} inp.students).1
  have hgroups : out1.1.groups = db.groups := by
    rw [hout1]; exact hrframe1.1.trans hframe1.1
  have hteachers : out1.1.teachers = db.teachers := by
    rw [hout1]; exact hrframe1.2.1.trans hframe1.2.1
  have hlessons : out1.1.lessons = db.lessons := by
    rw [hout1]; exact hrframe1.2.2.1.trans hframe1.2.2.1
  have hg2 : findGroup out1.1 inp.groupId inp.siteId = some group := by
    unfold findGroup at hg ⊢; rw [hgroups]; exact hg
  have ht2 : findTeacher out1.1 inp.teacherId inp.siteId = some teacher := by
    unfold findTeacher at ht ⊢; rw [hteachers]; exact ht
  have hl2 : findLesson out1.1 inp.lessonId = some lesson := by
    unfold findLesson at hl ⊢; rw [hlessons]; exact hl
  have hkeys1 : out1.1.students.map (fun s => (s.studentId, s.siteId)) =
      db.students.map (fun s => (s.studentId, s.siteId)) := by
    rw [hout1]
    exact (recalcAll_studentKeys _ _).trans
      (processStudents_studentKeys (batchCtx inp group teacher lesson) inp.students db {})
  have hled1 : out1.1.ledger =
      upsertAllLedger (batchCtx inp group teacher lesson) db.ledger
        (effectivePairs db (batchCtx inp group teacher lesson) inp.students) := by
    rw [hout1, hrframe1.2.2.2.2.2.2]
    exact processStudents_ledger_eq (batchCtx inp group teacher lesson) inp.students db {} db rfl
  have hrec1 : (processStudents (batchCtx inp group teacher lesson) db {} inp.students).2.recalc =
      (effectivePairs db (batchCtx inp group teacher lesson) inp.students).map Prod.fst :=
    (processStudents_recalc_eq (batchCtx inp group teacher lesson) inp.students db {} db
      rfl).trans (List.nil_append _)
  have hrec2 : (processStudents (batchCtx inp group teacher lesson) out1.1 {} inp.students).2.recalc =
      (effectivePairs db (batchCtx inp group teacher lesson) inp.students).map Prod.fst :=
    (processStudents_recalc_eq (batchCtx inp group teacher lesson) inp.students out1.1 {} db
      hkeys1).trans (List.nil_append _)
  have hled2 : (processStudents (batchCtx inp group teacher lesson) out1.1 {} inp.students).1.ledger =
      out1.1.ledger := by
    rw [processStudents_ledger_eq (batchCtx inp group teacher lesson) inp.students out1.1 {} db
      hkeys1, hled1]
    exact upsertAllLedger_idem _ _ db.ledger
  have hframe2 := processStudents_frame (batchCtx inp group teacher lesson) inp.students out1.1 {}
  have hPR2 : (processStudents (batchCtx inp group teacher lesson) out1.1 {} inp.students).1.progressRecords
      = out1.1.progressRecords := hframe2.2.2.2.2.2
  have hfix : ∀ sid ∈ (processStudents (batchCtx inp group teacher lesson) out1.1 {} inp.students).2.recalc,
      ∀ stu, findStudentById
          (processStudents (batchCtx inp group teacher lesson) out1.1 {} inp.students).1 sid = some stu →
      ∃ pr, (processStudents (batchCtx inp group teacher lesson) out1.1 {} inp.students).1.progressRecords.find?
          (progressKeyMatch sid) = some pr ∧
        applyProgressData (computeProgressData
          (statusMapOf (processStudents (batchCtx inp group teacher lesson) out1.1 {} inp.students).1 sid)
          stu.grade) pr = pr := by
    intro sid hmem stu hstu
    have hmem1 : sid ∈ (processStudents (batchCtx inp group teacher lesson) db {} inp.students).2.recalc := by
      rw [hrec1]; rw [hrec2] at hmem; exact hmem
    have hgv : gradeView (processStudents (batchCtx inp group teacher lesson) out1.1 {} inp.students).1 sid
        = gradeView out1.1 sid :=
      gradeView_processStudents (batchCtx inp group teacher lesson) inp.students out1.1 {} sid
    unfold gradeView at hgv
    rw [hstu] at hgv
    obtain ⟨stu₁, hstu₁, hgr⟩ := Option.map_eq_some'.mp hgv.symm
    have hstu₁' : findStudentById (recalcAll
        (processStudents (batchCtx inp group teacher lesson) db {} inp.students).1
        (processStudents (batchCtx inp group teacher lesson) db {} inp.students).2.recalc) sid =
        some stu₁ := by
      rw [← hout1]; exact hstu₁
    obtain ⟨pr, hpr, hfx⟩ := recalcAll_post_fixpoint
      (processStudents (batchCtx inp group teacher lesson) db {} inp.students).2.recalc
      (processStudents (batchCtx inp group teacher lesson) db {} inp.students).1
      sid hmem1 stu₁ hstu₁'
    rw [← hout1] at hpr hfx
    refine ⟨pr, ?_, ?_⟩
    · rw [hPR2]; exact hpr
    · have hsm : statusMapOf
          (processStudents (batchCtx inp group teacher lesson) out1.1 {} inp.students).1 sid =
          statusMapOf out1.1 sid :=
        statusMapOf_congr _ _ sid hled2 hframe2.2.2.1
      have hgr' : stu₁.grade = stu.grade := hgr
      rw [hsm, ← hgr']
      exact hfx
  refine ⟨(recalcAll (processStudents (batchCtx inp group teacher lesson) out1.1 {} inp.students).1
      (processStudents (batchCtx inp group teacher lesson) out1.1 {} inp.students).2.recalc,
    { created := (processStudents (batchCtx inp group teacher lesson) out1.1 {} inp.students).2.created
      updated := (processStudents (batchCtx inp group teacher lesson) out1.1 {} inp.students).2.updated
      unenrolled := (processStudents (batchCtx inp group teacher lesson) out1.1 {} inp.students).2.unenrolled
      errors := (processStudents (batchCtx inp group teacher lesson) out1.1 {} inp.students).2.errors
      lessonNumber := lesson.number
      groupName := group.name
      entryDate := inp.entryDate }), ?_, ?_, ?_⟩
  · unfold processBatch
    rw [hg2, ht2, hl2]
  · exact ((recalcAll_frame _ _).2.2.2.2.2.2).trans hled2
  · exact (recalcAll_pr_fixpoint _ _ hfix).trans hPR2

/-- Concrete instance of C7: on the one-student site, the mixed batch
(unknown student 2 passing, student 1 failing lesson 105) succeeds, its
outcomes contain no U, and re-submitting it reproduces the same Ledger and
the same progress-record table. -/
theorem C7_idempotent_resubmission_witness :
    processBatch exampleDB exampleMixedBatch =
        Except.ok (okOr (processBatch exampleDB exampleMixedBatch)) ∧
    (∀ p ∈ exampleMixedBatch.students, p.2 ≠ Status.U) ∧
    ∃ out2, processBatch (okOr (processBatch exampleDB exampleMixedBatch)).1
          exampleMixedBatch = Except.ok out2 ∧
      out2.1.ledger = (okOr (processBatch exampleDB exampleMixedBatch)).1.ledger ∧
      out2.1.progressRecords =
        (okOr (processBatch exampleDB exampleMixedBatch)).1.progressRecords :=
  ⟨rfl, by decide,
    C7_idempotent_resubmission exampleDB exampleMixedBatch
      (okOr (processBatch exampleDB exampleMixedBatch)) rfl (by decide)⟩

end CHAW
